import Mathlib

/-!
Verification development for the side-by-side diff view model
(app/src/ui/diff/side-by-side-diff.tsx).

The definitions below are a shallow embedding of the row classifier, the
intra-line diff emphasis, the token overlay, the selection engine, the search
engine and the whole-file expansion buffer of that file.  Types and functions
keep the names of the source.  External collaborators that are not part of the
source file (the token table lookup, the token-level string diff, the persisted
selection object, and the regular expression matcher) are modelled from the
specification and are marked as such in their doc comments.
-/

/-- Type tag of one physical diff line (models DiffLineType from models/diff). -/
inductive DiffLineType
  | Context
  | Add
  | Delete
  | Hunk
deriving DecidableEq, Inhabited

/-- The two visual columns of the side-by-side view. -/
inductive DiffColumn
  | Before
  | After
deriving DecidableEq, Inhabited

/-- One highlight token: a length and a class tag. -/
structure IToken where
  length : Nat
  token : String
deriving DecidableEq, Inhabited

/-- Sparse map from character offset to token, modelled as an association list. -/
abbrev ILineTokens := List (Nat × IToken)

/-- Per line-number table of token maps, modelled as an association list. -/
abbrev ITokens := List (Nat × ILineTokens)

/-- Expansion capability of a hunk (models DiffHunkExpansionType). -/
inductive DiffHunkExpansionType
  | None
  | Up
  | Down
  | Both
  | Short
deriving DecidableEq, Inhabited

/-- Modelled from the spec: one physical line within a hunk (models DiffLine
from models/diff, which is not under src).  Content text, a type tag, an old
and a new line number present according to the type, the stable diff line
number used as the selection key, and the missing trailing newline flag. -/
structure DiffLine where
  text : String
  content : String
  type : DiffLineType
  originalLineNumber : Option Nat
  oldLineNumber : Option Nat
  newLineNumber : Option Nat
  noTrailingNewLine : Bool
deriving DecidableEq, Inhabited

/-- Modelled from the spec: an ordered block of lines with its starting unified
diff offset and its expansion capability (models DiffHunk from models/diff). -/
structure DiffHunk where
  lines : List DiffLine
  unifiedDiffStart : Nat
  expansionType : DiffHunkExpansionType
deriving DecidableEq, Inhabited

/-- Modelled from the spec: an ordered sequence of hunks plus the largest line
number of the file and the raw diff text (models ITextDiff from models/diff). -/
structure ITextDiff where
  hunks : List DiffHunk
  maxLineNumber : Nat
  text : String
deriving DecidableEq, Inhabited

/-- An added or deleted line paired with its diff line number
(the ModifiedLine type alias of the source). -/
structure ModifiedLine where
  line : DiffLine
  diffLineNumber : Nat
deriving DecidableEq, Inhabited

/-- Selector for the line number field a row side uses. -/
inductive LineNoField
  | oldLineNumber
  | newLineNumber
deriving DecidableEq, Inhabited

/-- Field access for LineNoField. -/
def DiffLine.numberField (l : DiffLine) : LineNoField → Option Nat
  | .oldLineNumber => l.oldLineNumber
  | .newLineNumber => l.newLineNumber

/-- Modelled from the spec: getTokens (diff-syntax-mode, not under src) looks
up the token map of one line number in a per-line token table and tolerates an
absent table by contributing nothing. -/
def getTokens (lineNumber : Nat) (tokens : Option ITokens) : Option ILineTokens :=
  match tokens with
  | none => none
  | some t =>
    match t.find? fun p => p.1 == lineNumber with
    | some p => some p.2
    | none => none

/-- Result of the token level diff between a deleted and an added line. -/
structure DiffTokensResult where
  before : ILineTokens
  after : ILineTokens
deriving DecidableEq, Inhabited

/-- Length of the longest common prefix of two character lists. -/
def commonPrefixLength : List Char → List Char → Nat
  | a :: as2, b :: bs =>
    if a = b then commonPrefixLength as2 bs + 1 else 0
  | _, _ => 0

/-- Modelled from the spec: getDiffTokens (diff-helpers, not under src)
computes a token level diff between the deleted and the added line and
translates it into two sparse token maps marking the differing spans.  The
differing span is modelled as the region left after removing the longest
common prefix and the longest common suffix. -/
def getDiffTokens (lineBefore lineAfter : String) : DiffTokensResult :=
  let b := lineBefore.data
  let a := lineAfter.data
  let p := commonPrefixLength b a
  let s := commonPrefixLength (b.drop p).reverse (a.drop p).reverse
  { before :=
      if b.length - p - s = 0 then []
      else [(p, { length := b.length - p - s, token := "diff-delete-inner" })]
    after :=
      if a.length - p - s = 0 then []
      else [(p, { length := a.length - p - s, token := "diff-add-inner" })] }

/-- Modelled from the spec: the persisted selection object (models/diff, not
under src) maps each diff line number to an included flag and is read through
isSelected and updated only through whole-object returning operations. -/
structure DiffSelection where
  isIncluded : Nat → Bool

/-- Membership query of the persisted selection. -/
def DiffSelection.isSelected (s : DiffSelection) (diffLineNumber : Nat) : Bool :=
  s.isIncluded diffLineNumber

/-- Modelled from the spec: returns a new selection with one line set. -/
def DiffSelection.withLineSelection (s : DiffSelection) (diffLineNumber : Nat)
    (selected : Bool) : DiffSelection :=
  ⟨fun n => if n = diffLineNumber then selected else s.isIncluded n⟩

/-- Threshold above which no intra-line diff is computed (source line 61). -/
def MaxLineLengthToCalculateDiff : Nat := 240

/-- Data of one populated column of a classified row (SimplifiedDiffRowData). -/
structure SimplifiedDiffRowData where
  content : String
  lineNumber : Nat
  diffLineNumber : Option Nat
  noNewLineIndicator : Bool
  tokens : List ILineTokens
deriving DecidableEq, Inhabited

/-- A classified row before token population (SimplifiedDiffRow). -/
inductive SimplifiedDiffRow
  | Added (data : SimplifiedDiffRowData) (hunkStartLine : Nat)
  | Deleted (data : SimplifiedDiffRowData) (hunkStartLine : Nat)
  | Modified (beforeData afterData : SimplifiedDiffRowData) (hunkStartLine : Nat)
  | Context (content : String) (beforeLineNumber afterLineNumber : Nat)
      (beforeTokens afterTokens : List ILineTokens)
  | Hunk (content : String) (expansionType : DiffHunkExpansionType) (hunkIndex : Nat)
deriving DecidableEq, Inhabited

/-- getDataFromLine of the source: builds the column data of an added or
deleted line.  The source throws when the requested line number field is
absent (forceUnwrap); this is modelled as none. -/
def getDataFromLine (ml : ModifiedLine) (lineToUse : LineNoField)
    (diffTokens : Option ILineTokens) : Option SimplifiedDiffRowData :=
  (ml.line.numberField lineToUse).map fun lineNumber =>
    { content := ml.line.content
      lineNumber := lineNumber
      diffLineNumber := ml.line.originalLineNumber
      noNewLineIndicator := ml.line.noTrailingNewLine
      tokens := match diffTokens with | some t => [t] | none => [] }

/-- The added lines of a run, in original order (addedLines of getModifiedRows). -/
def addedOf (ms : List ModifiedLine) : List ModifiedLine :=
  ms.filter fun l => l.line.type == DiffLineType.Add

/-- The deleted lines of a run, in original order (deletedLines of getModifiedRows). -/
def deletedOf (ms : List ModifiedLine) : List ModifiedLine :=
  ms.filter fun l => l.line.type == DiffLineType.Delete

/-- Number of Modified pairs the run produces: min of the two counts in
side-by-side mode, zero in unified mode (the while loop bound of the source). -/
def pairCount (ms : List ModifiedLine) (showSideBySideDiff : Bool) : Nat :=
  if showSideBySideDiff then min (addedOf ms).length (deletedOf ms).length else 0

/-- The intra-line diff of pair i of a run, when both contents are short
enough (the body of the shouldDisplayDiffInChunk loop of getModifiedRows). -/
def pairEmphasis (deletedLines addedLines : List ModifiedLine) (i : Nat) :
    Option DiffTokensResult :=
  match deletedLines[i]?, addedLines[i]? with
  | some deletedLine, some addedLine =>
    if addedLine.line.content.length < MaxLineLengthToCalculateDiff ∧
        deletedLine.line.content.length < MaxLineLengthToCalculateDiff then
      some (getDiffTokens deletedLine.line.content addedLine.line.content)
    else none
  | _, _ => none

/-- The diffTokensBefore array of getModifiedRows: entry i carries the before
side of the intra-line diff of pair i, only populated when the run has as many
added as deleted lines. -/
def tokensBeforeList (ms : List ModifiedLine) : List (Option ILineTokens) :=
  if (addedOf ms).length = (deletedOf ms).length then
    (List.range (deletedOf ms).length).map fun i =>
      (pairEmphasis (deletedOf ms) (addedOf ms) i).map DiffTokensResult.before
  else []

/-- The diffTokensAfter array of getModifiedRows. -/
def tokensAfterList (ms : List ModifiedLine) : List (Option ILineTokens) :=
  if (addedOf ms).length = (deletedOf ms).length then
    (List.range (deletedOf ms).length).map fun i =>
      (pairEmphasis (deletedOf ms) (addedOf ms) i).map DiffTokensResult.after
  else []

/-- Element j of a sparse token array; a missing entry is none, matching the
undefined result of shifting a JavaScript array past its end. -/
def emphAt (emph : List (Option ILineTokens)) (j : Nat) : Option ILineTokens :=
  emph.getD j none

/-- The while loop of getModifiedRows: pairs the next deleted and added line
into a Modified row, consuming one entry of each token array per step. -/
def emitModifiedRows (hunkStartLine : Nat) :
    List ModifiedLine → List ModifiedLine → List (Option ILineTokens) →
    List (Option ILineTokens) → Option (List SimplifiedDiffRow)
  | deletedLine :: ds, addedLine :: as2, eb, ea => do
    let beforeData ← getDataFromLine deletedLine .oldLineNumber (eb.headD none)
    let afterData ← getDataFromLine addedLine .newLineNumber (ea.headD none)
    let rest ← emitModifiedRows hunkStartLine ds as2 eb.tail ea.tail
    some (SimplifiedDiffRow.Modified beforeData afterData hunkStartLine :: rest)
  | _, _, _, _ => some []

/-- The trailing loops of getModifiedRows: emits the unpaired lines of one
side as rows of the given kind, consuming the remaining token array entries. -/
def emitTrailingRows (mk : SimplifiedDiffRowData → Nat → SimplifiedDiffRow)
    (lineToUse : LineNoField) (hunkStartLine : Nat) :
    List ModifiedLine → List (Option ILineTokens) → Option (List SimplifiedDiffRow)
  | [], _ => some []
  | l :: ls, emph => do
    let data ← getDataFromLine l lineToUse (emph.headD none)
    let rest ← emitTrailingRows mk lineToUse hunkStartLine ls emph.tail
    some (mk data hunkStartLine :: rest)

/-- getModifiedRows of the source: classifies one contiguous run of added and
deleted lines into Modified, Deleted and Added rows. -/
def getModifiedRows (addedDeletedLines : List ModifiedLine)
    (showSideBySideDiff : Bool) : Option (List SimplifiedDiffRow) :=
  match addedDeletedLines with
  | [] => some []
  | first :: _ =>
    let hunkStartLine := first.diffLineNumber
    let addedLines := addedOf addedDeletedLines
    let deletedLines := deletedOf addedDeletedLines
    let diffTokensBefore := tokensBeforeList addedDeletedLines
    let diffTokensAfter := tokensAfterList addedDeletedLines
    let numModified := pairCount addedDeletedLines showSideBySideDiff
    match emitModifiedRows hunkStartLine (deletedLines.take numModified)
        (addedLines.take numModified) (diffTokensBefore.take numModified)
        (diffTokensAfter.take numModified),
      emitTrailingRows SimplifiedDiffRow.Deleted .oldLineNumber hunkStartLine
        (deletedLines.drop numModified) (diffTokensBefore.drop numModified),
      emitTrailingRows SimplifiedDiffRow.Added .newLineNumber hunkStartLine
        (addedLines.drop numModified) (diffTokensAfter.drop numModified) with
    | some m, some d, some a => some (m ++ d ++ a)
    | _, _, _ => none

/-- The line walking loop of getDiffRowsFromHunk: accumulates consecutive
added and deleted lines in modifiedLines, flushes them through
getModifiedRows when a context or hunk header line (or the end of the hunk)
is reached, and emits the context or hunk header row after the flush.  A
context line missing one of its line numbers is a fatal contract violation of
the source (assertNonNullable), modelled as none. -/
def getDiffRowsFromHunkGo (hunkIndex : Nat) (hunk : DiffHunk)
    (showSideBySideDiff enableDiffExpansion : Bool) :
    Nat → List DiffLine → List ModifiedLine → Option (List SimplifiedDiffRow)
  | _, [], modifiedLines => getModifiedRows modifiedLines showSideBySideDiff
  | num, line :: rest, modifiedLines =>
    let diffLineNumber := hunk.unifiedDiffStart + num
    match line.type with
    | .Delete =>
      getDiffRowsFromHunkGo hunkIndex hunk showSideBySideDiff enableDiffExpansion
        (num + 1) rest (modifiedLines ++ [⟨line, diffLineNumber⟩])
    | .Add =>
      getDiffRowsFromHunkGo hunkIndex hunk showSideBySideDiff enableDiffExpansion
        (num + 1) rest (modifiedLines ++ [⟨line, diffLineNumber⟩])
    | .Hunk => do
      let flushed ← getModifiedRows modifiedLines showSideBySideDiff
      let tail2 ← getDiffRowsFromHunkGo hunkIndex hunk showSideBySideDiff
        enableDiffExpansion (num + 1) rest []
      some (flushed ++
        SimplifiedDiffRow.Hunk line.text
          (if enableDiffExpansion then hunk.expansionType
           else DiffHunkExpansionType.None) hunkIndex :: tail2)
    | .Context => do
      let flushed ← getModifiedRows modifiedLines showSideBySideDiff
      match line.oldLineNumber, line.newLineNumber with
      | some oldLn, some newLn => do
        let tail2 ← getDiffRowsFromHunkGo hunkIndex hunk showSideBySideDiff
          enableDiffExpansion (num + 1) rest []
        some (flushed ++
          SimplifiedDiffRow.Context line.content oldLn newLn [] [] :: tail2)
      | _, _ => none

/-- getDiffRowsFromHunk of the source. -/
def getDiffRowsFromHunk (hunkIndex : Nat) (hunk : DiffHunk)
    (showSideBySideDiff enableDiffExpansion : Bool) :
    Option (List SimplifiedDiffRow) :=
  getDiffRowsFromHunkGo hunkIndex hunk showSideBySideDiff enableDiffExpansion
    0 hunk.lines []

/-- getDiffRows of the source (the memoization wrapper is identity on the
value and is not modelled). -/
def getDiffRows (diff : ITextDiff) (showSideBySideDiff enableDiffExpansion : Bool) :
    Option (List SimplifiedDiffRow) :=
  (diff.hunks.enum.mapM fun p =>
    getDiffRowsFromHunk p.1 p.2 showSideBySideDiff enableDiffExpansion).map
    fun ls => ls.flatten

/-- One search hit: row index, column, character offset and match length. -/
structure SearchHit where
  row : Nat
  column : DiffColumn
  offset : Nat
  length : Nat
deriving DecidableEq, Inhabited

/-- Replaces or inserts the token at one offset of a sparse token map
(assignment to an object property in the source). -/
def ILineTokens.set (lt : ILineTokens) (offset : Nat) (tok : IToken) : ILineTokens :=
  if lt.any fun p => p.1 = offset then
    lt.map fun p => if p.1 = offset then (offset, tok) else p
  else lt ++ [(offset, tok)]

/-- The SearchResults class of the source: hits ordered by insertion plus a
lookup by row and column. -/
structure SearchResults where
  lookup : List ((Nat × DiffColumn) × ILineTokens)
  hits : List SearchHit
deriving DecidableEq, Inhabited

/-- A fresh, empty SearchResults. -/
def SearchResults.empty : SearchResults := ⟨[], []⟩

/-- SearchResults.add of the source. -/
def SearchResults.add (sr : SearchResults) (row : Nat) (column : DiffColumn)
    (offset length2 : Nat) : SearchResults :=
  let token : IToken := { length := length2, token := "search-result" }
  let lookup :=
    if sr.lookup.any fun p => p.1 = (row, column) then
      sr.lookup.map fun p =>
        if p.1 = (row, column) then (p.1, p.2.set offset token) else p
    else sr.lookup ++ [((row, column), [(offset, token)])]
  { lookup := lookup, hits := sr.hits ++ [⟨row, column, offset, length2⟩] }

/-- SearchResults.length of the source. -/
def SearchResults.length (sr : SearchResults) : Nat := sr.hits.length

/-- SearchResults.get of the source. -/
def SearchResults.get (sr : SearchResults) (index : Nat) : Option SearchHit :=
  sr.hits[index]?

/-- SearchResults.getLineTokens of the source. -/
def SearchResults.getLineTokens (sr : SearchResults) (row : Nat)
    (column : DiffColumn) : Option ILineTokens :=
  (sr.lookup.find? fun p => p.1 == (row, column)).map fun p => p.2

/-- Case-insensitive comparison of a pattern against the start of a text. -/
def matchesHere : List Char → List Char → Bool
  | [], _ => true
  | _ :: _, [] => false
  | p :: ps, c :: cs => p.toLower == c.toLower && matchesHere ps cs

/-- Scans the text left to right, recording every non-overlapping match of the
pattern and continuing after each match.  The fuel argument, initially the
text length, bounds the recursion; every step consumes at least one character
so the fuel never runs out before the text does. -/
def findMatchesAux (p0 : Char) (ps : List Char) :
    Nat → List Char → Nat → List (Nat × Nat)
  | 0, _, _ => []
  | _ + 1, [], _ => []
  | fuel + 1, c :: rest, pos =>
    if matchesHere (p0 :: ps) (c :: rest) then
      (pos, ps.length + 1) ::
        findMatchesAux p0 ps fuel (rest.drop ps.length) (pos + ps.length + 1)
    else findMatchesAux p0 ps fuel rest (pos + 1)

/-- Modelled from the spec: the global case-insensitive literal match of the
source (a regular expression built with escapeRegExp and the gi flags, so the
query is never interpreted as a pattern).  Returns every match as an offset
and length pair, in left to right order, non-overlapping. -/
def findMatches (searchQuery content : String) : List (Nat × Nat) :=
  match searchQuery.data with
  | [] => []
  | p0 :: ps => findMatchesAux p0 ps content.data.length content.data 0

/-- enumerateColumnContents of the source: the textual columns of a row, in
yield order. -/
def enumerateColumnContents (row : SimplifiedDiffRow)
    (showSideBySideDiffs : Bool) : List (DiffColumn × String) :=
  match row with
  | .Hunk content _ _ => [(DiffColumn.Before, content)]
  | .Added data _ =>
    [(if showSideBySideDiffs then DiffColumn.After else DiffColumn.Before,
      data.content)]
  | .Deleted data _ => [(DiffColumn.Before, data.content)]
  | .Context content _ _ _ _ =>
    if showSideBySideDiffs then
      [(DiffColumn.Before, content), (DiffColumn.After, content)]
    else [(DiffColumn.Before, content)]
  | .Modified beforeData afterData _ =>
    [(DiffColumn.Before, beforeData.content), (DiffColumn.After, afterData.content)]

/-- Whether a row is a hunk header row. -/
def isHunkRow : SimplifiedDiffRow → Bool
  | .Hunk _ _ _ => true
  | _ => false

/-- calcSearchTokens of the source: scans every non hunk-header row and
records every match of the query.  An empty query produces no result set; a
classifier contract violation (which the source would raise) is also none. -/
def calcSearchTokens (diff : ITextDiff) (showSideBySideDiffs : Bool)
    (searchQuery : String) (enableDiffExpansion : Bool) : Option SearchResults :=
  if searchQuery.length = 0 then none
  else
    match getDiffRows diff showSideBySideDiffs enableDiffExpansion with
    | none => none
    | some rows =>
      some (rows.enum.foldl
        (fun hits p =>
          if isHunkRow p.2 then hits
          else
            (enumerateColumnContents p.2 showSideBySideDiffs).foldl
              (fun hits col =>
                (findMatches searchQuery col.2).foldl
                  (fun hits m => hits.add p.1 col.1 m.1 m.2) hits)
              hits)
        SearchResults.empty)

/-- One endpoint of a transient drag selection (ISelectionPoint). -/
structure ISelectionPoint where
  column : DiffColumn
  row : Nat
deriving DecidableEq, Inhabited

/-- The transient drag selection (ISelection of the source). -/
structure ISelection where
  from_ : ISelectionPoint
  to_ : ISelectionPoint
  isSelected : Bool
deriving DecidableEq, Inhabited

/-- isInTemporarySelection of the source: the row lies between the start and
the current row of the drag and the column is one of the two endpoint
columns. -/
def isInTemporarySelection (row : Nat) (column : DiffColumn)
    (selection : Option ISelection) : Bool :=
  match selection with
  | none => false
  | some s =>
    decide (min s.from_.row s.to_.row ≤ row ∧ row ≤ max s.to_.row s.from_.row ∧
      (column = s.from_.column ∨ column = s.to_.column))

/-- isInSelection of the source: combines the persisted membership with the
transient drag, additively or subtractively. -/
def isInSelection (diffLineNumber row : Nat) (column : DiffColumn)
    (selection : Option DiffSelection)
    (temporarySelection : Option ISelection) : Bool :=
  let isInStoredSelection :=
    match selection with
    | some s => s.isSelected diffLineNumber
    | none => false
  match temporarySelection with
  | none => isInStoredSelection
  | some ts =>
    let isInTemporary := isInTemporarySelection row column (some ts)
    if ts.isSelected then isInStoredSelection || isInTemporary
    else isInStoredSelection && !isInTemporary

/-- The component state and props consulted by the row population path:
display mode, the two asynchronous token tables, the search state, the
persisted file selection and the transient drag selection. -/
structure ComponentState where
  showSideBySideDiff : Bool
  beforeTokens : Option ITokens
  afterTokens : Option ITokens
  searchResults : Option SearchResults
  selectedSearchResult : Option Nat
  fileSelection : Option DiffSelection
  temporarySelection : Option ISelection

/-- getSearchTokens of the source: the search token maps of one cell, with a
distinguished selected sub-token appended when the selected hit lands on this
exact cell and its offset is present in the map. -/
def getSearchTokens (st : ComponentState) (row : Nat) (column : DiffColumn) :
    Option (List ILineTokens) :=
  match st.searchResults with
  | none => none
  | some searchTokens =>
    match searchTokens.getLineTokens row column with
    | none => none
    | some lineTokens =>
      match st.selectedSearchResult with
      | none => some [lineTokens]
      | some selectedSearchResult =>
        match searchTokens.get selectedSearchResult with
        | none => some [lineTokens]
        | some selected =>
          if row = selected.row ∧ column = selected.column then
            if (lineTokens.find? fun p => p.1 == selected.offset).isSome then
              some [lineTokens,
                [(selected.offset,
                  { length := selected.length, token := "selected" })]]
            else some [lineTokens]
          else some [lineTokens]

/-- Data of one populated column after token overlay (IDiffRowData). -/
structure IDiffRowData where
  content : String
  lineNumber : Nat
  diffLineNumber : Option Nat
  noNewLineIndicator : Bool
  tokens : List ILineTokens
  isSelected : Bool
deriving DecidableEq, Inhabited

/-- A fully populated row (DiffRow of diff-helpers). -/
inductive DiffRow
  | Added (data : IDiffRowData) (hunkStartLine : Nat)
  | Deleted (data : IDiffRowData) (hunkStartLine : Nat)
  | Modified (beforeData afterData : IDiffRowData) (hunkStartLine : Nat)
  | Context (content : String) (beforeLineNumber afterLineNumber : Nat)
      (beforeTokens afterTokens : List ILineTokens)
  | Hunk (content : String) (expansionType : DiffHunkExpansionType) (hunkIndex : Nat)
deriving DecidableEq, Inhabited

/-- getRowDataPopulated of the source: appends the search token maps and then
the highlight token map of the true file line number to the intra-line diff
tokens already carried by the row data, and computes the cell selection
state. -/
def getRowDataPopulated (st : ComponentState) (data : SimplifiedDiffRowData)
    (row : Nat) (column : DiffColumn) (tokens : Option ITokens) : IDiffRowData :=
  let searchTokens := getSearchTokens st row column
  let lineTokens := getTokens data.lineNumber tokens
  let finalTokens :=
    (data.tokens ++ (match searchTokens with | some l => l | none => [])) ++
      (match lineTokens with | some t => [t] | none => [])
  { content := data.content
    lineNumber := data.lineNumber
    diffLineNumber := data.diffLineNumber
    noNewLineIndicator := data.noNewLineIndicator
    tokens := finalTokens
    isSelected :=
      match data.diffLineNumber with
      | some n => isInSelection n row column st.fileSelection st.temporarySelection
      | none => false }

/-- createFullRow of the source.  Added rows populate the after column in
side-by-side mode and the before column in unified mode, always from the
after table; Deleted rows the before column from the before table; Modified
rows both columns from their own tables.  Context rows look the old line
number up in the before table, falling back to the new line number in the
after table, push the one shared result to both columns and then append the
search tokens of each column. -/
def createFullRow (st : ComponentState) (row : SimplifiedDiffRow)
    (numRow : Nat) : DiffRow :=
  match row with
  | .Added data hunkStartLine =>
    DiffRow.Added
      (getRowDataPopulated st data numRow
        (if st.showSideBySideDiff then DiffColumn.After else DiffColumn.Before)
        st.afterTokens)
      hunkStartLine
  | .Deleted data hunkStartLine =>
    DiffRow.Deleted
      (getRowDataPopulated st data numRow DiffColumn.Before st.beforeTokens)
      hunkStartLine
  | .Modified beforeData afterData hunkStartLine =>
    DiffRow.Modified
      (getRowDataPopulated st beforeData numRow DiffColumn.Before st.beforeTokens)
      (getRowDataPopulated st afterData numRow DiffColumn.After st.afterTokens)
      hunkStartLine
  | .Context content beforeLineNumber afterLineNumber beforeTokens0 afterTokens0 =>
    let lineTokens :=
      match getTokens beforeLineNumber st.beforeTokens with
      | some t => some t
      | none => getTokens afterLineNumber st.afterTokens
    let beforeTokens1 :=
      beforeTokens0 ++ (match lineTokens with | some t => [t] | none => [])
    let afterTokens1 :=
      afterTokens0 ++ (match lineTokens with | some t => [t] | none => [])
    let beforeTokens2 :=
      beforeTokens1 ++
        (match getSearchTokens st numRow DiffColumn.Before with
         | some l => l | none => [])
    let afterTokens2 :=
      afterTokens1 ++
        (match getSearchTokens st numRow DiffColumn.After with
         | some l => l | none => [])
    DiffRow.Context content beforeLineNumber afterLineNumber
      beforeTokens2 afterTokens2
  | .Hunk content expansionType hunkIndex =>
    DiffRow.Hunk content expansionType hunkIndex

/-- getDiffLineNumber of the source, over an already classified row sequence
(the source recomputes the memoized rows from its state): the diff line
number of one cell, none for an out of range index and for hunk header and
context rows. -/
def getDiffLineNumber (rows : List SimplifiedDiffRow) (rowNumber : Nat)
    (column : DiffColumn) : Option Nat :=
  match rows[rowNumber]? with
  | none => none
  | some row =>
    match row with
    | .Added data _ => data.diffLineNumber
    | .Deleted data _ => data.diffLineNumber
    | .Modified beforeData afterData _ =>
      if column = DiffColumn.After then afterData.diffLineNumber
      else beforeData.diffLineNumber
    | _ => none

/-- One iteration of the row loop of onEndSelection: resolves the diff line
number of the start column and of the end column at one row and applies the
drag flag to each resolved line. -/
def endSelStep (rows : List SimplifiedDiffRow) (ts : ISelection) (row : Nat)
    (sel : DiffSelection) : DiffSelection :=
  let lineBefore := getDiffLineNumber rows row ts.from_.column
  let lineAfter := getDiffLineNumber rows row ts.to_.column
  let sel1 :=
    match lineBefore with
    | some l => sel.withLineSelection l ts.isSelected
    | none => sel
  match lineAfter with
  | some l => sel1.withLineSelection l ts.isSelected
  | none => sel1

/-- The row loop of onEndSelection: walks count rows starting at row. -/
def endSelLoop (rows : List SimplifiedDiffRow) (ts : ISelection) :
    Nat → Nat → DiffSelection → DiffSelection
  | _, 0, sel => sel
  | row, count + 1, sel =>
    endSelLoop rows ts (row + 1) count (endSelStep rows ts row sel)

/-- onEndSelection of the source: folds the transient drag into a batch of
withLineSelection updates over the rows between the two drag endpoints and
returns the new selection handed to onIncludeChanged (none when there is no
persisted selection or no transient drag). -/
def onEndSelection (rows : List SimplifiedDiffRow)
    (selection : Option DiffSelection)
    (temporarySelection : Option ISelection) : Option DiffSelection :=
  match selection, temporarySelection with
  | some sel, some ts =>
    let fromRow := min ts.from_.row ts.to_.row
    let toRow := max ts.from_.row ts.to_.row
    some (endSelLoop rows ts fromRow (toRow + 1 - fromRow) sel)
  | _, _ => none

/-- The search related slice of the component state. -/
structure SearchState where
  isSearching : Bool
  searchQuery : Option String
  searchResults : Option SearchResults
  selectedSearchResult : Option Nat
deriving DecidableEq, Inhabited

/-- resetSearch of the source. -/
def resetSearch (isSearching : Bool) : SearchState :=
  { isSearching := isSearching
    searchQuery := none
    searchResults := none
    selectedSearchResult := none }

/-- onSearchCancel of the source. -/
def onSearchCancel : SearchState := resetSearch false

/-- Direction of a search invocation. -/
inductive SearchDirection
  | next
  | previous
deriving DecidableEq, Inhabited

/-- The restart branch of onSearch: rebuilds the hit set for the query and
selects the first hit; an absent or empty result ends the session through
resetSearch true. -/
def onSearchRestart (diff : ITextDiff) (showSideBySideDiff canExpand : Bool)
    (st : SearchState) (searchQuery : String) : SearchState :=
  match calcSearchTokens diff showSideBySideDiff searchQuery canExpand with
  | none => resetSearch true
  | some searchResults =>
    if searchResults.length = 0 then resetSearch true
    else
      { st with
        searchQuery := some searchQuery
        searchResults := some searchResults
        selectedSearchResult := some 0 }

/-- onSearch of the source: with an unchanged query and existing results it
advances the selected hit index modulo the hit count (the JavaScript modulo
bug is avoided by adding the length before taking the remainder); otherwise
it restarts the search. -/
def onSearch (diff : ITextDiff) (showSideBySideDiff canExpand : Bool)
    (st : SearchState) (searchQuery : String)
    (direction : SearchDirection) : SearchState :=
  match st.searchQuery, st.searchResults with
  | some q, some searchResults =>
    if q = searchQuery then
      let selectedSearchResult : Nat :=
        match st.selectedSearchResult with
        | none => 0
        | some i =>
          let delta : Int :=
            match direction with
            | .next => 1
            | .previous => -1
          (((i : Int) + delta + (searchResults.length : Int)) %
            ((searchResults.length : Int))).toNat
      { st with
        searchQuery := some searchQuery
        searchResults := some searchResults
        selectedSearchResult := some selectedSearchResult }
    else onSearchRestart diff showSideBySideDiff canExpand st searchQuery
  | _, _ => onSearchRestart diff showSideBySideDiff canExpand st searchQuery

/-- Modelled from the spec: the file contents collaborator
(IFileContents of syntax-highlighting, not under src): the post-image text
and the expansion eligibility flag. -/
structure IFileContents where
  canBeExpanded : Bool
  newContents : String
deriving DecidableEq, Inhabited

/-- canExpandDiff of the source. -/
def canExpandDiff (contents : Option IFileContents) : Bool :=
  match contents with
  | none => false
  | some c => c.canBeExpanded && decide (0 < c.newContents.length)

/-- The slice of the component owning whole-file expansion: the rendered diff
and the single-slot restore buffer diffToRestore. -/
structure ExpansionState where
  diff : ITextDiff
  diffToRestore : Option ITextDiff
deriving DecidableEq, Inhabited

/-- onExpandWholeFile of the source, parameterized by the external
expandWholeTextDiff function (text-diff-expansion, not under src): when the
expansion produces an updated diff, the previous diff is stored in the
restore buffer and the updated diff becomes current; otherwise nothing
changes. -/
def onExpandWholeFile (expandWholeTextDiff : ITextDiff → String → Option ITextDiff)
    (contents : Option IFileContents) (st : ExpansionState) : ExpansionState :=
  match contents with
  | none => st
  | some c =>
    if canExpandDiff (some c) then
      match expandWholeTextDiff st.diff c.newContents with
      | none => st
      | some updatedDiff => { diff := updatedDiff, diffToRestore := some st.diff }
    else st

/-- onCollapseExpandedLines of the source: restores the buffered diff and
clears the buffer; a no-op when the buffer is empty. -/
def onCollapseExpandedLines (st : ExpansionState) : ExpansionState :=
  match st.diffToRestore with
  | none => st
  | some d => { diff := d, diffToRestore := none }

/-- The persisted membership test as the spec words it: the persisted
selection when present, false when absent. -/
def persistedMembership (diffLineNumber : Nat)
    (selection : Option DiffSelection) : Bool :=
  match selection with
  | some s => s.isSelected diffLineNumber
  | none => false

/-- The transient rectangle as the claim words it: the row lies between the
start and the current row of the drag, inclusive and regardless of their
order, and the column equals one of the two endpoint columns. -/
def specInRect (row : Nat) (column : DiffColumn) (ts : ISelection) : Bool :=
  decide (((ts.from_.row ≤ row ∧ row ≤ ts.to_.row) ∨
      (ts.to_.row ≤ row ∧ row ≤ ts.from_.row)) ∧
    (column = ts.from_.column ∨ column = ts.to_.column))

/-- The column data of a line as claim C1 describes it, without tokens. -/
def specData (ml : ModifiedLine) (lineToUse : LineNoField) : SimplifiedDiffRowData :=
  { content := ml.line.content
    lineNumber := (ml.line.numberField lineToUse).getD 0
    diffLineNumber := ml.line.originalLineNumber
    noNewLineIndicator := ml.line.noTrailingNewLine
    tokens := [] }

/-- Clears the intra-line diff tokens of the column data of a row, so the row
sequence can be compared shape-wise with the sequence claim C1 describes. -/
def SimplifiedDiffRowData.clearTokens (d : SimplifiedDiffRowData) :
    SimplifiedDiffRowData :=
  { d with tokens := [] }

/-- Row-level token clearing. -/
def SimplifiedDiffRow.clearTokens : SimplifiedDiffRow → SimplifiedDiffRow
  | .Added d h => .Added d.clearTokens h
  | .Deleted d h => .Deleted d.clearTokens h
  | .Modified b a h => .Modified b.clearTokens a.clearTokens h
  | .Context c b a bt at2 => .Context c b a bt at2
  | .Hunk c e i => .Hunk c e i

/-- The run classification claim C1 describes: in side-by-side mode, pair
deleted i with added i for min of the two counts many Modified rows, then the
remaining unpaired Deleted rows in order, then the remaining unpaired Added
rows in order; in unified mode no Modified rows, all Deleted rows in order
and then all Added rows in order.  Every row carries the diff line number of
the first line of the run as its hunk start identifier. -/
def specRunRows (ms : List ModifiedLine) (showSideBySideDiff : Bool) :
    List SimplifiedDiffRow :=
  match ms with
  | [] => []
  | first :: _ =>
    let start := first.diffLineNumber
    let added := addedOf ms
    let deleted := deletedOf ms
    let k := if showSideBySideDiff then min added.length deleted.length else 0
    ((List.range k).map fun i =>
      SimplifiedDiffRow.Modified (specData (deleted.getD i default) .oldLineNumber)
        (specData (added.getD i default) .newLineNumber) start)
    ++ ((deleted.drop k).map fun d =>
        SimplifiedDiffRow.Deleted (specData d .oldLineNumber) start)
    ++ ((added.drop k).map fun a =>
        SimplifiedDiffRow.Added (specData a .newLineNumber) start)

/-- The intra-line emphasis claim C5 describes for pair i of a run: present
exactly when the run has as many added as deleted lines and both contents are
strictly below the threshold. -/
def specPairEmphasis (ms : List ModifiedLine) (i : Nat) : Option DiffTokensResult :=
  match (deletedOf ms)[i]?, (addedOf ms)[i]? with
  | some d, some a =>
    if (addedOf ms).length = (deletedOf ms).length ∧
        d.line.content.length < MaxLineLengthToCalculateDiff ∧
        a.line.content.length < MaxLineLengthToCalculateDiff then
      some (getDiffTokens d.line.content a.line.content)
    else none
  | _, _ => none

/-- The token list the before side of a pair carries for a given emphasis. -/
def beforeTokenList (e : Option DiffTokensResult) : List ILineTokens :=
  match e with
  | some t => [t.before]
  | none => []

/-- The token list the after side of a pair carries for a given emphasis. -/
def afterTokenList (e : Option DiffTokensResult) : List ILineTokens :=
  match e with
  | some t => [t.after]
  | none => []

/-- The cells claim C9 (amended) says the search scans: hunk header rows
never; Context rows in the before column, and also the after column in
side-by-side mode; Deleted rows in the before column; Added rows in the after
column in side-by-side mode, else the before column; Modified rows in both
columns. -/
def specScanColumns (row : SimplifiedDiffRow) (showSideBySideDiffs : Bool) :
    List (DiffColumn × String) :=
  match row with
  | .Hunk _ _ _ => []
  | .Context content _ _ _ _ =>
    if showSideBySideDiffs then
      [(DiffColumn.Before, content), (DiffColumn.After, content)]
    else [(DiffColumn.Before, content)]
  | .Deleted data _ => [(DiffColumn.Before, data.content)]
  | .Added data _ =>
    [(if showSideBySideDiffs then DiffColumn.After else DiffColumn.Before,
      data.content)]
  | .Modified beforeData afterData _ =>
    [(DiffColumn.Before, beforeData.content), (DiffColumn.After, afterData.content)]

/-- The ordered hit list claim C9 describes: a sequential scan of the rows,
recording for every scanned cell every case-insensitive literal match as a
hit carrying the row index, the column, the offset and the length. -/
def specHits (rows : List SimplifiedDiffRow) (showSideBySideDiffs : Bool)
    (searchQuery : String) : List SearchHit :=
  rows.enum.flatMap fun p =>
    (specScanColumns p.2 showSideBySideDiffs).flatMap fun col =>
      (findMatches searchQuery col.2).map fun m =>
        { row := p.1, column := col.1, offset := m.1, length := m.2 }

/-- The column data built from a line when its number field is known present
(total form of getDataFromLine, used to state the classifier results). -/
def totalRowData (ml : ModifiedLine) (lineToUse : LineNoField)
    (t : Option ILineTokens) : SimplifiedDiffRowData :=
  { content := ml.line.content
    lineNumber := (ml.line.numberField lineToUse).getD 0
    diffLineNumber := ml.line.originalLineNumber
    noNewLineIndicator := ml.line.noTrailingNewLine
    tokens := match t with | some x => [x] | none => [] }

/-- The intra-line diff tokens of a populated row, as a projection. -/
def rowDataTokens : DiffRow → Option (List ILineTokens)
  | .Added d _ => some d.tokens
  | .Deleted d _ => some d.tokens
  | _ => none

/-- The two token lists of a populated Modified row, as a projection. -/
def modifiedTokens : DiffRow → Option (List ILineTokens × List ILineTokens)
  | .Modified b a _ => some (b.tokens, a.tokens)
  | _ => none

/-- The two token lists of a populated Context row, as a projection. -/
def contextTokensOf : DiffRow → Option (List ILineTokens × List ILineTokens)
  | .Context _ _ _ bt at2 => some (bt, at2)
  | _ => none

/-- The search overlay of one cell, as a token list. -/
def searchOverlay (st : ComponentState) (row : Nat) (column : DiffColumn) :
    List ILineTokens :=
  match getSearchTokens st row column with
  | some l => l
  | none => []

/-- The highlight overlay of one line number against one table. -/
def highlightOverlay (lineNumber : Nat) (tokens : Option ITokens) :
    List ILineTokens :=
  match getTokens lineNumber tokens with
  | some t => [t]
  | none => []

/-- The single highlight token list a Context row shares between its two
columns: the old line number looked up in the before table, falling back to
the new line number in the after table. -/
def contextSharedHighlight (st : ComponentState)
    (beforeLineNumber afterLineNumber : Nat) : List ILineTokens :=
  match getTokens beforeLineNumber st.beforeTokens with
  | some t => [t]
  | none =>
    match getTokens afterLineNumber st.afterTokens with
    | some t => [t]
    | none => []

/-- Whether the row at an index is absent, a hunk header or a context row:
the rows claim C10 says can never resolve a diff line number. -/
def nonInteractiveAt (rows : List SimplifiedDiffRow) (n : Nat) : Bool :=
  match rows[n]? with
  | none => true
  | some (.Hunk _ _ _) => true
  | some (.Context _ _ _ _ _) => true
  | some _ => false

/-- Whether the row at an index is an Added, Deleted or Modified row carrying
the given diff line number in one of its columns. -/
def rowProvidesLine (rows : List SimplifiedDiffRow) (r l : Nat) : Bool :=
  match rows[r]? with
  | some (.Added d _) => d.diffLineNumber == some l
  | some (.Deleted d _) => d.diffLineNumber == some l
  | some (.Modified bd ad _) =>
    bd.diffLineNumber == some l || ad.diffLineNumber == some l
  | _ => false

lemma isInTemporarySelection_eq_specInRect (row : Nat) (column : DiffColumn)
    (ts : ISelection) :
    isInTemporarySelection row column (some ts) = specInRect row column ts := by
  unfold isInTemporarySelection specInRect
  rw [decide_eq_decide]
  constructor
  · rintro ⟨h1, h2, h3⟩
    exact ⟨by omega, h3⟩
  · rintro ⟨h1, h2⟩
    exact ⟨by omega, by omega, h2⟩

/-- C2: with no transient drag, isInSelection is exactly the persisted
membership test; an additive drag widens it with the transient rectangle, a
subtractive drag removes the rectangle from it, where the rectangle admits
the drag rows in either order and either endpoint column. -/
theorem c2_selection_combination (diffLineNumber row : Nat) (column : DiffColumn)
    (selection : Option DiffSelection) (ts : ISelection) :
    isInSelection diffLineNumber row column selection none =
      persistedMembership diffLineNumber selection ∧
    isInSelection diffLineNumber row column selection (some ts) =
      (if ts.isSelected then
        persistedMembership diffLineNumber selection || specInRect row column ts
      else
        persistedMembership diffLineNumber selection &&
          !(specInRect row column ts)) := by
  refine ⟨rfl, ?_⟩
  show (if ts.isSelected then _ || isInTemporarySelection row column (some ts)
    else _ && !(isInTemporarySelection row column (some ts))) = _
  rw [isInTemporarySelection_eq_specInRect]
  rfl

/-- C6: a whole-file expansion that produces an updated diff stores the
current diff in the single-slot restore buffer, and collapsing afterwards
restores exactly that diff and clears the buffer. -/
theorem c6_expand_collapse_roundtrip
    (expandWholeTextDiff : ITextDiff → String → Option ITextDiff)
    (contents : IFileContents) (st : ExpansionState) (updatedDiff : ITextDiff)
    (hcan : canExpandDiff (some contents) = true)
    (hupd : expandWholeTextDiff st.diff contents.newContents = some updatedDiff) :
    onExpandWholeFile expandWholeTextDiff (some contents) st =
      { diff := updatedDiff, diffToRestore := some st.diff } ∧
    onCollapseExpandedLines
      (onExpandWholeFile expandWholeTextDiff (some contents) st) =
      { diff := st.diff, diffToRestore := none } := by
  have h1 : onExpandWholeFile expandWholeTextDiff (some contents) st =
      { diff := updatedDiff, diffToRestore := some st.diff } := by
    simp [onExpandWholeFile, hcan, hupd]
  exact ⟨h1, by rw [h1]; rfl⟩

/-- A concrete diff value for witnesses. -/
def diffWitA : ITextDiff := { hunks := [], maxLineNumber := 0, text := "a" }

/-- A second concrete diff value for witnesses. -/
def diffWitB : ITextDiff := { hunks := [], maxLineNumber := 3, text := "b" }

/-- Witness for C6 at a concrete expansion function and diff. -/
theorem c6_expand_collapse_roundtrip_witness :
    onExpandWholeFile (fun _ _ => some diffWitB)
      (some { canBeExpanded := true, newContents := "x" })
      { diff := diffWitA, diffToRestore := none } =
      { diff := diffWitB, diffToRestore := some diffWitA } ∧
    onCollapseExpandedLines
      (onExpandWholeFile (fun _ _ => some diffWitB)
        (some { canBeExpanded := true, newContents := "x" })
        { diff := diffWitA, diffToRestore := none }) =
      { diff := diffWitA, diffToRestore := none } :=
  c6_expand_collapse_roundtrip (fun _ _ => some diffWitB)
    { canBeExpanded := true, newContents := "x" }
    { diff := diffWitA, diffToRestore := none } diffWitB (by decide) rfl

/-- C7 (amended): a fresh search of a non-empty query that finds zero hits
resets the query, the results and the selected hit exactly like cancelling,
but keeps isSearching true (the search session stays open), while cancel sets
isSearching false; the two resulting states differ in that flag only. -/
theorem c7_zero_hits_amended (diff : ITextDiff) (sbs ce : Bool)
    (st : SearchState) (q : String) (dir : SearchDirection) (r : SearchResults)
    (hrestart : ∀ q0 r0, st.searchQuery = some q0 → st.searchResults = some r0 →
      q0 ≠ q)
    (hfound : calcSearchTokens diff sbs q ce = some r)
    (hlen : r.length = 0) :
    onSearch diff sbs ce st q dir =
      { isSearching := true, searchQuery := none, searchResults := none,
        selectedSearchResult := none } ∧
    onSearchCancel =
      { isSearching := false, searchQuery := none, searchResults := none,
        selectedSearchResult := none } := by
  have hrst : onSearchRestart diff sbs ce st q =
      { isSearching := true, searchQuery := none, searchResults := none,
        selectedSearchResult := none } := by
    unfold onSearchRestart
    rw [hfound]
    simp [hlen, resetSearch]
  refine ⟨?_, rfl⟩
  unfold onSearch
  match hq : st.searchQuery, hr : st.searchResults with
  | none, none => exact hrst
  | none, some r0 => exact hrst
  | some q0, none => exact hrst
  | some q0, some r0 =>
    have : ¬ q0 = q := hrestart q0 r0 hq hr
    simp only [this, if_false]
    exact hrst

/-- An empty diff for search witnesses. -/
def diffWitEmpty : ITextDiff := { hunks := [], maxLineNumber := 0, text := "" }

/-- The initial search state. -/
def searchStateInit : SearchState :=
  { isSearching := true, searchQuery := none, searchResults := none,
    selectedSearchResult := none }

/-- Witness for C7 (amended): searching an empty diff for a fresh query. -/
theorem c7_zero_hits_amended_witness :
    onSearch diffWitEmpty false false searchStateInit "a" SearchDirection.next =
      { isSearching := true, searchQuery := none, searchResults := none,
        selectedSearchResult := none } ∧
    onSearchCancel =
      { isSearching := false, searchQuery := none, searchResults := none,
        selectedSearchResult := none } :=
  c7_zero_hits_amended diffWitEmpty false false searchStateInit "a"
    SearchDirection.next SearchResults.empty
    (fun q0 r0 h _ => by cases h) (by decide) rfl

/-- C7 counterexample: at a concrete zero-hit search, the state after the
search is not the state after cancelling (isSearching differs), refuting the
claim that the two operations produce equal state including the isSearching
flag. -/
theorem c7_zero_hits_counterexample :
    onSearch diffWitEmpty false false searchStateInit "a" SearchDirection.next ≠
      onSearchCancel := by
  decide

lemma intWrapNext (i n : Nat) :
    (((i : Int) + 1) % ((n : Int))).toNat = (i + 1) % n := by
  have h : ((i : Int) + 1) % ((n : Int)) = (((i + 1) % n : Nat) : Int) := by
    exact_mod_cast rfl
  rw [h, Int.toNat_natCast]

lemma intWrapPrev (i n : Nat) (hn : 0 < n) :
    (((i : Int) + -1) % ((n : Int))).toNat = (i + n - 1) % n := by
  have h1 : (1 : Nat) ≤ i + n := by omega
  have h0 : ((i : Int) + -1) % ((n : Int)) =
      (((i + n - 1 : Nat)) : Int) % ((n : Int)) := by
    have h : (((i + n - 1 : Nat)) : Int) = ((i : Int) + -1) + (n : Int) * 1 := by
      rw [Nat.cast_sub h1]
      push_cast
      ring
    rw [h, Int.add_mul_emod_self_left]
  have h2 : (((i + n - 1 : Nat)) : Int) % ((n : Int)) =
      (((i + n - 1) % n : Nat) : Int) := by
    exact_mod_cast rfl
  rw [h0, h2, Int.toNat_natCast]

lemma onSearch_unchanged (diff : ITextDiff) (sbs ce : Bool) (st : SearchState)
    (q : String) (r : SearchResults) (n i : Nat)
    (hq : st.searchQuery = some q) (hr : st.searchResults = some r)
    (hlen : r.length = n) (hn : 0 < n) (hi : st.selectedSearchResult = some i)
    (dir : SearchDirection) :
    onSearch diff sbs ce st q dir =
      { st with
          searchQuery := some q
          searchResults := some r
          selectedSearchResult := some (match dir with
            | .next => (i + 1) % n
            | .previous => (i + n - 1) % n) } := by
  unfold onSearch
  rw [hq, hr]
  simp only [if_pos rfl, hi]
  cases dir with
  | next =>
    simp only [SearchResults.length] at hlen
    simp [SearchResults.length, hlen, intWrapNext]
  | previous =>
    simp only [SearchResults.length] at hlen
    simp [SearchResults.length, hlen, intWrapPrev i n hn]

/-- C8: with an unchanged query over an n-hit set and selected index i, next
selects (i + 1) mod n and previous selects (i - 1 + n) mod n, wrapping in
both directions; a changed query rebuilds the hit set and selects index 0;
and a second next selects ((i + 1) mod n + 1) mod n, which on a 2-hit set
cycles 0 to 1 and back to 0. -/
theorem c8_search_navigation (diff : ITextDiff) (sbs ce : Bool)
    (st st2 : SearchState) (q : String) (dir : SearchDirection)
    (r r2 : SearchResults) (n i : Nat)
    (hq : st.searchQuery = some q) (hr : st.searchResults = some r)
    (hlen : r.length = n) (hn : 0 < n) (hi : st.selectedSearchResult = some i)
    (hrestart : ∀ q0 r0, st2.searchQuery = some q0 →
      st2.searchResults = some r0 → q0 ≠ q)
    (hcalc : calcSearchTokens diff sbs q ce = some r2)
    (hr2 : 0 < r2.length) :
    onSearch diff sbs ce st q SearchDirection.next =
      { st with
          searchQuery := some q
          searchResults := some r
          selectedSearchResult := some ((i + 1) % n) } ∧
    onSearch diff sbs ce st q SearchDirection.previous =
      { st with
          searchQuery := some q
          searchResults := some r
          selectedSearchResult := some ((i + n - 1) % n) } ∧
    onSearch diff sbs ce st2 q dir =
      { st2 with
          searchQuery := some q
          searchResults := some r2
          selectedSearchResult := some 0 } ∧
    onSearch diff sbs ce (onSearch diff sbs ce st q SearchDirection.next) q
        SearchDirection.next =
      { st with
          searchQuery := some q
          searchResults := some r
          selectedSearchResult := some (((i + 1) % n + 1) % n) } := by
  have hnext := onSearch_unchanged diff sbs ce st q r n i hq hr hlen hn hi
    SearchDirection.next
  refine ⟨hnext, onSearch_unchanged diff sbs ce st q r n i hq hr hlen hn hi
    SearchDirection.previous, ?_, ?_⟩
  · have hrst : onSearchRestart diff sbs ce st2 q =
        { st2 with
            searchQuery := some q
            searchResults := some r2
            selectedSearchResult := some 0 } := by
      unfold onSearchRestart
      rw [hcalc]
      have : ¬ r2.length = 0 := by omega
      simp [this]
    unfold onSearch
    match hq2 : st2.searchQuery, hr2m : st2.searchResults with
    | none, none => exact hrst
    | none, some r0 => exact hrst
    | some q0, none => exact hrst
    | some q0, some r0 =>
      have : ¬ q0 = q := hrestart q0 r0 hq2 hr2m
      simp only [this, if_false]
      exact hrst
  · rw [hnext]
    exact onSearch_unchanged diff sbs ce _ q r n ((i + 1) % n) rfl rfl hlen hn
      rfl SearchDirection.next

/-- A two-hit result set for the C8 witness. -/
def searchResultsTwo : SearchResults :=
  (SearchResults.empty.add 0 DiffColumn.Before 0 1).add 0 DiffColumn.Before 2 1

/-- A search state sitting on the first hit of the two-hit set. -/
def searchStateTwo : SearchState :=
  { isSearching := true, searchQuery := some "a",
    searchResults := some searchResultsTwo, selectedSearchResult := some 0 }

/-- A context line whose content contains the letter a twice. -/
def lineWitAba : DiffLine :=
  { text := "aba"
    content := "aba"
    type := DiffLineType.Context
    originalLineNumber := none
    oldLineNumber := some 1
    newLineNumber := some 1
    noTrailingNewLine := false }

/-- A one-row diff whose context line contains the query twice. -/
def diffWitTwoHits : ITextDiff :=
  { hunks := [{ lines := [lineWitAba]
                unifiedDiffStart := 0
                expansionType := DiffHunkExpansionType.None }]
    maxLineNumber := 1
    text := "aba" }

/-- Witness for C8: on a concrete 2-hit set, next selects 1, previous wraps
to 1, a changed query selects 0, and next twice cycles back to 0. -/
theorem c8_search_navigation_witness :
    onSearch diffWitTwoHits false false searchStateTwo "a"
        SearchDirection.next =
      { searchStateTwo with
          searchQuery := some "a"
          searchResults := some searchResultsTwo
          selectedSearchResult := some ((0 + 1) % 2) } ∧
    onSearch diffWitTwoHits false false searchStateTwo "a"
        SearchDirection.previous =
      { searchStateTwo with
          searchQuery := some "a"
          searchResults := some searchResultsTwo
          selectedSearchResult := some ((0 + 2 - 1) % 2) } ∧
    onSearch diffWitTwoHits false false searchStateInit "a"
        SearchDirection.next =
      { searchStateInit with
          searchQuery := some "a"
          searchResults := some searchResultsTwo
          selectedSearchResult := some 0 } ∧
    onSearch diffWitTwoHits false false
        (onSearch diffWitTwoHits false false searchStateTwo "a"
          SearchDirection.next) "a" SearchDirection.next =
      { searchStateTwo with
          searchQuery := some "a"
          searchResults := some searchResultsTwo
          selectedSearchResult := some (((0 + 1) % 2 + 1) % 2) } :=
  c8_search_navigation diffWitTwoHits false false searchStateTwo
    searchStateInit "a" SearchDirection.next searchResultsTwo
    searchResultsTwo 2 0
    rfl rfl (by decide) (by decide) rfl (fun q0 r0 h _ => by cases h)
    (by decide) (by decide)

/-- C3 (amended): for Added, Deleted and Modified rows the final token list
is the intra-line diff-emphasis tokens, then the search-hit tokens of the
cell, then the highlight tokens of the true file line number; for Context
rows the shared highlight tokens are appended before the search-hit tokens,
so the order there is emphasis (always empty), highlight, search. -/
theorem c3_token_order_amended (st : ComponentState) (numRow : Nat) :
    (∀ data h2,
      rowDataTokens (createFullRow st (SimplifiedDiffRow.Added data h2) numRow) =
        some (data.tokens ++
          searchOverlay st numRow
            (if st.showSideBySideDiff then DiffColumn.After else DiffColumn.Before) ++
          highlightOverlay data.lineNumber st.afterTokens)) ∧
    (∀ data h2,
      rowDataTokens (createFullRow st (SimplifiedDiffRow.Deleted data h2) numRow) =
        some (data.tokens ++ searchOverlay st numRow DiffColumn.Before ++
          highlightOverlay data.lineNumber st.beforeTokens)) ∧
    (∀ bd ad h2,
      modifiedTokens (createFullRow st (SimplifiedDiffRow.Modified bd ad h2) numRow) =
        some (bd.tokens ++ searchOverlay st numRow DiffColumn.Before ++
            highlightOverlay bd.lineNumber st.beforeTokens,
          ad.tokens ++ searchOverlay st numRow DiffColumn.After ++
            highlightOverlay ad.lineNumber st.afterTokens)) ∧
    (∀ content bln aln bt at2,
      contextTokensOf
          (createFullRow st (SimplifiedDiffRow.Context content bln aln bt at2) numRow) =
        some (bt ++ contextSharedHighlight st bln aln ++
            searchOverlay st numRow DiffColumn.Before,
          at2 ++ contextSharedHighlight st bln aln ++
            searchOverlay st numRow DiffColumn.After)) := by
  refine ⟨fun data h2 => rfl, fun data h2 => rfl, fun bd ad h2 => rfl,
    fun content bln aln bt at2 => ?_⟩
  cases hb : getTokens bln st.beforeTokens with
  | some t => simp [createFullRow, contextTokensOf, contextSharedHighlight,
      searchOverlay, hb]
  | none =>
    cases ha : getTokens aln st.afterTokens <;>
      simp [createFullRow, contextTokensOf, contextSharedHighlight,
        searchOverlay, hb, ha]

/-- A single keyword highlight token map. -/
def synTokKeyword : ILineTokens := [(0, { length := 1, token := "keyword" })]

/-- A single search-result token map. -/
def schTok : ILineTokens := [(0, { length := 1, token := "search-result" })]

/-- A result set with one hit on the before column of row 0. -/
def searchResultsCtx : SearchResults :=
  SearchResults.empty.add 0 DiffColumn.Before 0 1

/-- A component state with a highlight entry for line 5 and a search hit on
row 0, column before. -/
def stC3 : ComponentState :=
  { showSideBySideDiff := false
    beforeTokens := some [(5, synTokKeyword)]
    afterTokens := none
    searchResults := some searchResultsCtx
    selectedSearchResult := none
    fileSelection := none
    temporarySelection := none }

/-- C3 counterexample: on a concrete Context row carrying both a search hit
and a highlight entry, the assembled before-column list is highlight tokens
followed by search tokens, not the search-then-highlight order the claim
states for every row type. -/
theorem c3_token_order_counterexample :
    contextTokensOf
        (createFullRow stC3 (SimplifiedDiffRow.Context "a" 5 7 [] []) 0) =
      some ([synTokKeyword, schTok], [synTokKeyword]) ∧
    [synTokKeyword, schTok] ≠ [schTok, synTokKeyword] := by
  exact ⟨by decide, by decide⟩

/-- C4 (amended): a Context row computes one shared highlight token list by
looking the old line number up in the pre-image table and falling back to the
new line number in the post-image table, and pushes that single result to
both columns; only when both lookups miss does neither column receive
highlight tokens. -/
theorem c4_context_shared_fallback (st : ComponentState) (numRow : Nat)
    (content : String) (bln aln : Nat) (bt at2 : List ILineTokens) :
    (getTokens bln st.beforeTokens = none → getTokens aln st.afterTokens = none →
      contextTokensOf
          (createFullRow st (SimplifiedDiffRow.Context content bln aln bt at2) numRow) =
        some (bt ++ searchOverlay st numRow DiffColumn.Before,
          at2 ++ searchOverlay st numRow DiffColumn.After)) ∧
    (∀ t, getTokens bln st.beforeTokens = some t →
      contextTokensOf
          (createFullRow st (SimplifiedDiffRow.Context content bln aln bt at2) numRow) =
        some (bt ++ [t] ++ searchOverlay st numRow DiffColumn.Before,
          at2 ++ [t] ++ searchOverlay st numRow DiffColumn.After)) ∧
    (∀ t, getTokens bln st.beforeTokens = none →
      getTokens aln st.afterTokens = some t →
      contextTokensOf
          (createFullRow st (SimplifiedDiffRow.Context content bln aln bt at2) numRow) =
        some (bt ++ [t] ++ searchOverlay st numRow DiffColumn.Before,
          at2 ++ [t] ++ searchOverlay st numRow DiffColumn.After)) := by
  refine ⟨fun hb ha => ?_, fun t hb => ?_, fun t hb ha => ?_⟩
  · simp [createFullRow, contextTokensOf, searchOverlay, hb, ha]
  · simp [createFullRow, contextTokensOf, searchOverlay, hb]
  · simp [createFullRow, contextTokensOf, searchOverlay, hb, ha]

/-- A single string highlight token map. -/
def synTokString : ILineTokens := [(0, { length := 1, token := "string" })]

/-- A component state whose pre-image table misses line 5 while the
post-image table has line 7. -/
def stC4 : ComponentState :=
  { showSideBySideDiff := true
    beforeTokens := some []
    afterTokens := some [(7, synTokString)]
    searchResults := none
    selectedSearchResult := none
    fileSelection := none
    temporarySelection := none }

/-- Witness for C4 (amended): with the pre-image lookup missing, the
post-image tokens land in both columns. -/
theorem c4_context_shared_fallback_witness :
    contextTokensOf
        (createFullRow stC4 (SimplifiedDiffRow.Context "a" 5 7 [] []) 0) =
      some ([] ++ [synTokString] ++ searchOverlay stC4 0 DiffColumn.Before,
        [] ++ [synTokString] ++ searchOverlay stC4 0 DiffColumn.After) :=
  (c4_context_shared_fallback stC4 0 "a" 5 7 [] []).2.2 synTokString
    (by decide) (by decide)

/-- C4 counterexample: on a concrete Context row whose old line number misses
the pre-image table while the new line number hits the post-image table, the
before column receives the post-image tokens, refuting that a miss on one
side is never substituted with the other side of the table pair. -/
theorem c4_context_substitution_counterexample :
    contextTokensOf
        (createFullRow stC4 (SimplifiedDiffRow.Context "a" 5 7 [] []) 0) =
      some ([synTokString], [synTokString]) ∧
    ([synTokString] : List ILineTokens) ≠ [] := by
  exact ⟨by decide, by decide⟩

lemma getDiffLineNumber_nonInteractive (rows : List SimplifiedDiffRow)
    (n : Nat) (c : DiffColumn) :
    nonInteractiveAt rows n = true → getDiffLineNumber rows n c = none := by
  unfold nonInteractiveAt getDiffLineNumber
  cases rows[n]? with
  | none => intro _; rfl
  | some row =>
    cases row with
    | Added d hs => intro h; exact Bool.noConfusion h
    | Deleted d hs => intro h; exact Bool.noConfusion h
    | Modified bd ad hs => intro h; exact Bool.noConfusion h
    | Context content b a bt at2 => intro _; rfl
    | Hunk content e i => intro _; rfl

lemma getDiffLineNumber_provides (rows : List SimplifiedDiffRow) (r l : Nat)
    (c : DiffColumn) :
    getDiffLineNumber rows r c = some l → rowProvidesLine rows r l = true := by
  unfold getDiffLineNumber rowProvidesLine
  cases rows[r]? with
  | none => intro h; exact Option.noConfusion h
  | some row =>
    cases row with
    | Added d hs =>
      intro h
      have h2 : d.diffLineNumber = some l := h
      simp [h2]
    | Deleted d hs =>
      intro h
      have h2 : d.diffLineNumber = some l := h
      simp [h2]
    | Modified bd ad hs =>
      intro h
      have h2 : (if c = DiffColumn.After then ad.diffLineNumber
          else bd.diffLineNumber) = some l := h
      split at h2 <;> simp [h2]
    | Context content b a bt at2 => intro h; exact Option.noConfusion h
    | Hunk content e i => intro h; exact Option.noConfusion h

lemma withLineSelection_isSelected (s : DiffSelection) (m : Nat) (b : Bool)
    (l : Nat) :
    (s.withLineSelection m b).isSelected l = if l = m then b else s.isSelected l :=
  rfl

lemma endSelStep_changes (rows : List SimplifiedDiffRow) (ts : ISelection)
    (row : Nat) (sel : DiffSelection) (l : Nat)
    (h : (endSelStep rows ts row sel).isSelected l ≠ sel.isSelected l) :
    rowProvidesLine rows row l = true := by
  unfold endSelStep at h
  cases hb : getDiffLineNumber rows row ts.from_.column with
  | none =>
    cases ha : getDiffLineNumber rows row ts.to_.column with
    | none => rw [hb, ha] at h; exact absurd rfl h
    | some la =>
      rw [hb, ha] at h
      simp only [withLineSelection_isSelected] at h
      by_cases hl : l = la
      · subst hl; exact getDiffLineNumber_provides rows row l ts.to_.column ha
      · rw [if_neg hl] at h; exact absurd rfl h
  | some lb =>
    cases ha : getDiffLineNumber rows row ts.to_.column with
    | none =>
      rw [hb, ha] at h
      simp only [withLineSelection_isSelected] at h
      by_cases hl : l = lb
      · subst hl; exact getDiffLineNumber_provides rows row l ts.from_.column hb
      · rw [if_neg hl] at h; exact absurd rfl h
    | some la =>
      rw [hb, ha] at h
      simp only [withLineSelection_isSelected] at h
      by_cases hla : l = la
      · subst hla; exact getDiffLineNumber_provides rows row l ts.to_.column ha
      · rw [if_neg hla] at h
        by_cases hlb : l = lb
        · subst hlb
          exact getDiffLineNumber_provides rows row l ts.from_.column hb
        · rw [if_neg hlb] at h; exact absurd rfl h

lemma endSelLoop_changes (rows : List SimplifiedDiffRow) (ts : ISelection) :
    ∀ (count row : Nat) (sel : DiffSelection) (l : Nat),
      (endSelLoop rows ts row count sel).isSelected l ≠ sel.isSelected l →
      ∃ r, row ≤ r ∧ r < row + count ∧ rowProvidesLine rows r l = true := by
  intro count
  induction count with
  | zero => exact fun row sel l h => absurd rfl h
  | succ k ih =>
    intro row sel l h
    have hstepEq : endSelLoop rows ts row (k + 1) sel =
        endSelLoop rows ts (row + 1) k (endSelStep rows ts row sel) := rfl
    rw [hstepEq] at h
    by_cases hstep :
        (endSelStep rows ts row sel).isSelected l = sel.isSelected l
    · rw [← hstep] at h
      obtain ⟨r, hr1, hr2, hr3⟩ := ih (row + 1) (endSelStep rows ts row sel) l h
      exact ⟨r, by omega, by omega, hr3⟩
    · exact ⟨row, le_refl _, by omega, endSelStep_changes rows ts row sel l hstep⟩

/-- C10: an out of range row index and a hunk-header or context row resolve
no diff line number, and consequently a drag release changes the persisted
selection only at lines provided by Added, Deleted or Modified rows within
the drag range. -/
theorem c10_null_line_resolution (rows : List SimplifiedDiffRow)
    (sel newSel : DiffSelection) (ts : ISelection) (rowNumber : Nat)
    (column : DiffColumn) (l : Nat)
    (h1 : nonInteractiveAt rows rowNumber = true)
    (h2 : onEndSelection rows (some sel) (some ts) = some newSel)
    (h3 : newSel.isSelected l ≠ sel.isSelected l) :
    getDiffLineNumber rows rowNumber column = none ∧
    ∃ r, min ts.from_.row ts.to_.row ≤ r ∧ r ≤ max ts.from_.row ts.to_.row ∧
      rowProvidesLine rows r l = true := by
  refine ⟨getDiffLineNumber_nonInteractive rows rowNumber column h1, ?_⟩
  unfold onEndSelection at h2
  have h2eq : endSelLoop rows ts (min ts.from_.row ts.to_.row)
      (max ts.from_.row ts.to_.row + 1 - min ts.from_.row ts.to_.row) sel =
      newSel := by
    injection h2
  rw [← h2eq] at h3
  obtain ⟨r, hr1, hr2, hr3⟩ := endSelLoop_changes rows ts _ _ sel l h3
  have hminmax : min ts.from_.row ts.to_.row ≤ max ts.from_.row ts.to_.row := by
    omega
  exact ⟨r, hr1, by omega, hr3⟩

/-- The column data of the added witness line. -/
def addedDataWit : SimplifiedDiffRowData :=
  { content := "x", lineNumber := 1, diffLineNumber := some 3,
    noNewLineIndicator := false, tokens := [] }

/-- A row sequence with a hunk header row and an added row. -/
def rowsWitC10 : List SimplifiedDiffRow :=
  [SimplifiedDiffRow.Hunk "@@" DiffHunkExpansionType.None 0,
   SimplifiedDiffRow.Added addedDataWit 1]

/-- The all-false persisted selection. -/
def selAllFalse : DiffSelection := ⟨fun _ => false⟩

/-- A drag from row 0 to row 1 on the before column, additive. -/
def tsWit : ISelection :=
  { from_ := { column := DiffColumn.Before, row := 0 }
    to_ := { column := DiffColumn.Before, row := 1 }
    isSelected := true }

/-- The selection produced by releasing the witness drag. -/
def newSelWit : DiffSelection := endSelLoop rowsWitC10 tsWit 0 2 selAllFalse

/-- Witness for C10: the hunk header row of a concrete drag resolves no line
number, and the one changed line comes from the Added row in range. -/
theorem c10_null_line_resolution_witness :
    getDiffLineNumber rowsWitC10 0 DiffColumn.Before = none ∧
    ∃ r, min tsWit.from_.row tsWit.to_.row ≤ r ∧
      r ≤ max tsWit.from_.row tsWit.to_.row ∧
      rowProvidesLine rowsWitC10 r 3 = true :=
  c10_null_line_resolution rowsWitC10 selAllFalse newSelWit tsWit 0
    DiffColumn.Before 3 (by decide) rfl (by decide)

lemma SearchResults.add_hits (sr : SearchResults) (row : Nat)
    (col : DiffColumn) (off len : Nat) :
    (sr.add row col off len).hits = sr.hits ++ [⟨row, col, off, len⟩] := rfl

lemma foldl_matches_hits (ms : List (Nat × Nat)) (sr : SearchResults)
    (row : Nat) (col : DiffColumn) :
    (ms.foldl (fun hits m => hits.add row col m.1 m.2) sr).hits =
      sr.hits ++ ms.map fun m => ⟨row, col, m.1, m.2⟩ := by
  induction ms generalizing sr with
  | nil => simp
  | cons m ms ih => simp [ih, SearchResults.add_hits]

lemma foldl_cols_hits (cols : List (DiffColumn × String)) (sr : SearchResults)
    (q : String) (rowNumber : Nat) :
    (cols.foldl (fun hits col =>
        (findMatches q col.2).foldl
          (fun hits m => hits.add rowNumber col.1 m.1 m.2) hits) sr).hits =
      sr.hits ++ cols.flatMap fun col =>
        (findMatches q col.2).map fun m => ⟨rowNumber, col.1, m.1, m.2⟩ := by
  induction cols generalizing sr with
  | nil => simp
  | cons c cs ih => simp [ih, foldl_matches_hits]

lemma foldl_rows_hits (l : List (Nat × SimplifiedDiffRow)) (sr : SearchResults)
    (sbs : Bool) (q : String) :
    (l.foldl (fun hits p =>
        if isHunkRow p.2 then hits
        else
          (enumerateColumnContents p.2 sbs).foldl
            (fun hits col =>
              (findMatches q col.2).foldl
                (fun hits m => hits.add p.1 col.1 m.1 m.2) hits) hits) sr).hits =
      sr.hits ++ l.flatMap fun p =>
        if isHunkRow p.2 then []
        else (enumerateColumnContents p.2 sbs).flatMap fun col =>
          (findMatches q col.2).map fun m => ⟨p.1, col.1, m.1, m.2⟩ := by
  induction l generalizing sr with
  | nil => simp
  | cons p ps ih =>
    by_cases hp : isHunkRow p.2 <;> simp [hp, ih, foldl_cols_hits]

lemma enumerate_eq_spec (row : SimplifiedDiffRow) (sbs : Bool)
    (h : isHunkRow row = false) :
    enumerateColumnContents row sbs = specScanColumns row sbs := by
  cases row with
  | Hunk c e i => exact absurd h (by simp [isHunkRow])
  | Added d hs => rfl
  | Deleted d hs => rfl
  | Context c b a bt at2 => rfl
  | Modified bd ad hs => rfl

/-- C9 (amended): for a non-empty query the search records exactly the
case-insensitive literal matches of the cells the specScanColumns table
describes, one ordered hit per match carrying row index, column, offset and
length; hunk header rows are never scanned, and Context rows are scanned in
both columns only in side-by-side mode, in the before column alone in
unified mode. -/
theorem c9_scan_cells_amended (diff : ITextDiff) (sbs : Bool) (q : String)
    (ce : Bool) (rows : List SimplifiedDiffRow)
    (hrows : getDiffRows diff sbs ce = some rows) (hq : ¬ q.length = 0) :
    (calcSearchTokens diff sbs q ce).map SearchResults.hits =
      some (specHits rows sbs q) := by
  unfold calcSearchTokens
  rw [if_neg hq, hrows]
  simp only [Option.map_some']
  congr 1
  rw [foldl_rows_hits]
  simp only [SearchResults.empty, List.nil_append]
  unfold specHits
  congr 1
  funext p
  by_cases hp : isHunkRow p.2
  · rw [if_pos hp]
    rcases p with ⟨n, row⟩
    cases row <;> simp [isHunkRow, specScanColumns] at hp ⊢
  · rw [if_neg hp, enumerate_eq_spec _ _ (by simpa using hp)]

/-- The hunk header line of the C9 witness diff. -/
def lineWitHeader : DiffLine :=
  { text := "@@ -1 +1 @@"
    content := ""
    type := DiffLineType.Hunk
    originalLineNumber := none
    oldLineNumber := none
    newLineNumber := none
    noTrailingNewLine := false }

/-- A context line with content a. -/
def lineWitCtxA : DiffLine :=
  { text := " a"
    content := "a"
    type := DiffLineType.Context
    originalLineNumber := none
    oldLineNumber := some 1
    newLineNumber := some 1
    noTrailingNewLine := false }

/-- A diff with one hunk header row and one context row. -/
def diffWitC9 : ITextDiff :=
  { hunks := [{ lines := [lineWitHeader, lineWitCtxA]
                unifiedDiffStart := 0
                expansionType := DiffHunkExpansionType.None }]
    maxLineNumber := 1
    text := "" }

/-- The classified rows of the C9 witness diff. -/
def rowsWitC9 : List SimplifiedDiffRow :=
  [SimplifiedDiffRow.Hunk "@@ -1 +1 @@" DiffHunkExpansionType.None 0,
   SimplifiedDiffRow.Context "a" 1 1 [] []]

/-- Witness for C9 (amended): in side-by-side mode the context row is scanned
in both columns and the hunk header row in neither. -/
theorem c9_scan_cells_amended_witness :
    (calcSearchTokens diffWitC9 true "a" false).map SearchResults.hits =
      some (specHits rowsWitC9 true "a") ∧
    specHits rowsWitC9 true "a" =
      [⟨1, DiffColumn.Before, 0, 1⟩, ⟨1, DiffColumn.After, 0, 1⟩] :=
  ⟨c9_scan_cells_amended diffWitC9 true "a" false rowsWitC9 (by decide)
    (by decide), by decide⟩

/-- C9 counterexample: in unified mode the same context row is scanned in the
before column only, refuting the claim that Context rows are scanned in both
columns for every display mode. -/
theorem c9_scan_cells_counterexample :
    (calcSearchTokens diffWitC9 false "a" false).map SearchResults.hits =
      some [⟨1, DiffColumn.Before, 0, 1⟩] ∧
    (⟨1, DiffColumn.After, 0, 1⟩ : SearchHit) ∉
      ((calcSearchTokens diffWitC9 false "a" false).map
        SearchResults.hits).getD [] := by
  exact ⟨by decide, by decide⟩

lemma emphAt_zero_headD (emph : List (Option ILineTokens)) :
    emphAt emph 0 = emph.headD none := by
  cases emph <;> rfl

lemma emphAt_succ_tail (emph : List (Option ILineTokens)) (j : Nat) :
    emphAt emph (j + 1) = emphAt emph.tail j := by
  cases emph <;> simp [emphAt]

lemma getD_take_of_lt {α : Type} (l : List α) (k i : Nat) (d : α) (h : i < k) :
    (l.take k).getD i d = l.getD i d := by
  rw [List.getD_eq_getElem?_getD, List.getD_eq_getElem?_getD,
    List.getElem?_take, if_pos h]

lemma getD_drop {α : Type} (l : List α) (k j : Nat) (d : α) :
    (l.drop k).getD j d = l.getD (k + j) d := by
  rw [List.getD_eq_getElem?_getD, List.getD_eq_getElem?_getD, List.getElem?_drop]

lemma getDataFromLine_of_isSome (ml : ModifiedLine) (fld : LineNoField)
    (t : Option ILineTokens) (h : (ml.line.numberField fld).isSome) :
    getDataFromLine ml fld t = some (totalRowData ml fld t) := by
  unfold getDataFromLine totalRowData
  cases hn : ml.line.numberField fld with
  | none => rw [hn] at h; simp at h
  | some v => simp [hn]

lemma emitTrailingRows_eq (mk : SimplifiedDiffRowData → Nat → SimplifiedDiffRow)
    (fld : LineNoField) (h : Nat) :
    ∀ (ls : List ModifiedLine) (emph : List (Option ILineTokens)),
      (∀ l ∈ ls, (l.line.numberField fld).isSome) →
      emitTrailingRows mk fld h ls emph =
        some ((List.range ls.length).map fun j =>
          mk (totalRowData (ls.getD j default) fld (emphAt emph j)) h) := by
  intro ls
  induction ls with
  | nil => intro emph _; rfl
  | cons l ls ih =>
    intro emph hwf
    have hl : (l.line.numberField fld).isSome := hwf l (by simp)
    have hstep : emitTrailingRows mk fld h (l :: ls) emph =
        (getDataFromLine l fld (emph.headD none)).bind fun data =>
          (emitTrailingRows mk fld h ls emph.tail).bind fun rest =>
            some (mk data h :: rest) := rfl
    rw [hstep, getDataFromLine_of_isSome l fld _ hl,
      ih emph.tail (fun x hx => hwf x (by simp [hx]))]
    simp only [Option.some_bind]
    congr 1
    rw [List.length_cons, List.range_succ_eq_map, List.map_cons, List.map_map]
    congr 1
    · simp [emphAt_zero_headD]
    · apply List.map_congr_left
      intro j _
      simp [Function.comp, emphAt_succ_tail]

lemma emitModifiedRows_eq (h : Nat) :
    ∀ (ds as2 : List ModifiedLine) (eb ea : List (Option ILineTokens)),
      (∀ l ∈ ds, (l.line.numberField LineNoField.oldLineNumber).isSome) →
      (∀ l ∈ as2, (l.line.numberField LineNoField.newLineNumber).isSome) →
      emitModifiedRows h ds as2 eb ea =
        some ((List.range (min ds.length as2.length)).map fun i =>
          SimplifiedDiffRow.Modified
            (totalRowData (ds.getD i default) .oldLineNumber (emphAt eb i))
            (totalRowData (as2.getD i default) .newLineNumber (emphAt ea i)) h) := by
  intro ds
  induction ds with
  | nil =>
    intro as2 eb ea _ _
    cases as2 <;> rfl
  | cons d ds ih =>
    intro as2 eb ea hd ha
    cases as2 with
    | nil => rfl
    | cons a as3 =>
      have hstep : emitModifiedRows h (d :: ds) (a :: as3) eb ea =
          (getDataFromLine d .oldLineNumber (eb.headD none)).bind fun beforeData =>
            (getDataFromLine a .newLineNumber (ea.headD none)).bind fun afterData =>
              (emitModifiedRows h ds as3 eb.tail ea.tail).bind fun rest =>
                some (SimplifiedDiffRow.Modified beforeData afterData h :: rest) :=
        rfl
      rw [hstep, getDataFromLine_of_isSome d _ _ (hd d (by simp)),
        getDataFromLine_of_isSome a _ _ (ha a (by simp)),
        ih as3 eb.tail ea.tail (fun x hx => hd x (by simp [hx]))
          (fun x hx => ha x (by simp [hx]))]
      simp only [Option.some_bind]
      congr 1
      rw [List.length_cons, List.length_cons, Nat.succ_min_succ,
        List.range_succ_eq_map, List.map_cons, List.map_map]
      congr 1
      · simp [emphAt_zero_headD]
      · apply List.map_congr_left
        intro j _
        simp [Function.comp, emphAt_succ_tail]

/-- The full output of getModifiedRows, with every index spelled out: the
paired Modified rows, the trailing Deleted rows, the trailing Added rows,
each side built from its line and its slot of the emphasis arrays. -/
def masterRows (ms : List ModifiedLine) (sbs : Bool) (start : Nat) :
    List SimplifiedDiffRow :=
  ((List.range (pairCount ms sbs)).map fun i =>
    SimplifiedDiffRow.Modified
      (totalRowData ((deletedOf ms).getD i default) .oldLineNumber
        (emphAt (tokensBeforeList ms) i))
      (totalRowData ((addedOf ms).getD i default) .newLineNumber
        (emphAt (tokensAfterList ms) i)) start)
  ++ ((List.range ((deletedOf ms).length - pairCount ms sbs)).map fun j =>
    SimplifiedDiffRow.Deleted
      (totalRowData ((deletedOf ms).getD (pairCount ms sbs + j) default)
        .oldLineNumber
        (emphAt (tokensBeforeList ms) (pairCount ms sbs + j))) start)
  ++ ((List.range ((addedOf ms).length - pairCount ms sbs)).map fun j =>
    SimplifiedDiffRow.Added
      (totalRowData ((addedOf ms).getD (pairCount ms sbs + j) default)
        .newLineNumber
        (emphAt (tokensAfterList ms) (pairCount ms sbs + j))) start)

lemma pairCount_le_deleted (ms : List ModifiedLine) (sbs : Bool) :
    pairCount ms sbs ≤ (deletedOf ms).length := by
  unfold pairCount
  split
  · exact Nat.min_le_right _ _
  · exact Nat.zero_le _

lemma pairCount_le_added (ms : List ModifiedLine) (sbs : Bool) :
    pairCount ms sbs ≤ (addedOf ms).length := by
  unfold pairCount
  split
  · exact Nat.min_le_left _ _
  · exact Nat.zero_le _

lemma getModifiedRows_eq (first : ModifiedLine) (rest : List ModifiedLine)
    (sbs : Bool)
    (hA : ∀ l ∈ addedOf (first :: rest),
      (l.line.numberField LineNoField.newLineNumber).isSome)
    (hD : ∀ l ∈ deletedOf (first :: rest),
      (l.line.numberField LineNoField.oldLineNumber).isSome) :
    getModifiedRows (first :: rest) sbs =
      some (masterRows (first :: rest) sbs first.diffLineNumber) := by
  have hkd := pairCount_le_deleted (first :: rest) sbs
  have hka := pairCount_le_added (first :: rest) sbs
  have hrw : getModifiedRows (first :: rest) sbs =
      match
        emitModifiedRows first.diffLineNumber
          ((deletedOf (first :: rest)).take (pairCount (first :: rest) sbs))
          ((addedOf (first :: rest)).take (pairCount (first :: rest) sbs))
          ((tokensBeforeList (first :: rest)).take (pairCount (first :: rest) sbs))
          ((tokensAfterList (first :: rest)).take (pairCount (first :: rest) sbs)),
        emitTrailingRows SimplifiedDiffRow.Deleted .oldLineNumber
          first.diffLineNumber
          ((deletedOf (first :: rest)).drop (pairCount (first :: rest) sbs))
          ((tokensBeforeList (first :: rest)).drop (pairCount (first :: rest) sbs)),
        emitTrailingRows SimplifiedDiffRow.Added .newLineNumber
          first.diffLineNumber
          ((addedOf (first :: rest)).drop (pairCount (first :: rest) sbs))
          ((tokensAfterList (first :: rest)).drop (pairCount (first :: rest) sbs))
        with
      | some m, some d2, some a2 => some (m ++ d2 ++ a2)
      | _, _, _ => none := rfl
  rw [hrw,
    emitModifiedRows_eq first.diffLineNumber _ _ _ _
      (fun l hl => hD l (List.take_subset _ _ hl))
      (fun l hl => hA l (List.take_subset _ _ hl)),
    emitTrailingRows_eq SimplifiedDiffRow.Deleted .oldLineNumber
      first.diffLineNumber _ _ (fun l hl => hD l (List.drop_subset _ _ hl)),
    emitTrailingRows_eq SimplifiedDiffRow.Added .newLineNumber
      first.diffLineNumber _ _ (fun l hl => hA l (List.drop_subset _ _ hl))]
  show some (_ ++ _ ++ _) = _
  congr 1
  unfold masterRows
  have hminlen :
      min ((deletedOf (first :: rest)).take (pairCount (first :: rest) sbs)).length
        ((addedOf (first :: rest)).take (pairCount (first :: rest) sbs)).length =
      pairCount (first :: rest) sbs := by
    simp only [List.length_take]
    omega
  rw [hminlen, List.length_drop, List.length_drop]
  congr 1
  congr 1
  · apply List.map_congr_left
    intro i hi
    have hik : i < pairCount (first :: rest) sbs := List.mem_range.mp hi
    unfold emphAt
    rw [getD_take_of_lt _ _ _ _ hik, getD_take_of_lt _ _ _ _ hik,
      getD_take_of_lt _ _ _ _ hik, getD_take_of_lt _ _ _ _ hik]
  · apply List.map_congr_left
    intro j _
    unfold emphAt
    rw [getD_drop, getD_drop]
  · apply List.map_congr_left
    intro j _
    unfold emphAt
    rw [getD_drop, getD_drop]

lemma map_drop_eq_range_map {α β : Type} [Inhabited α] (l : List α) (k : Nat)
    (f : α → β) :
    (l.drop k).map f =
      (List.range (l.length - k)).map fun j => f (l.getD (k + j) default) := by
  apply List.ext_getElem?
  intro n
  rw [List.getElem?_map, List.getElem?_map, List.getElem?_drop]
  by_cases h : n < l.length - k
  · rw [List.getElem?_range h]
    have h2 : k + n < l.length := by omega
    rw [List.getElem?_eq_getElem h2]
    simp [List.getD_eq_getElem?_getD, List.getElem?_eq_getElem h2]
  · have h2 : l.length ≤ k + n := by omega
    rw [List.getElem?_eq_none h2]
    have h3 : (List.range (l.length - k))[n]? = none :=
      List.getElem?_eq_none (by simpa using h)
    rw [h3]
    simp

lemma clearTokens_totalRowData (ml : ModifiedLine) (fld : LineNoField)
    (t : Option ILineTokens) :
    (totalRowData ml fld t).clearTokens = specData ml fld := rfl

lemma mem_addedOf_isSome (ms : List ModifiedLine)
    (hadd : ∀ l ∈ ms, l.line.type = DiffLineType.Add →
      (l.line.newLineNumber).isSome) :
    ∀ l ∈ addedOf ms, (l.line.numberField LineNoField.newLineNumber).isSome := by
  intro l hl
  have hmem := List.mem_of_mem_filter hl
  have htype := List.of_mem_filter hl
  exact hadd l hmem (by simpa using htype)

lemma mem_deletedOf_isSome (ms : List ModifiedLine)
    (hdel : ∀ l ∈ ms, l.line.type = DiffLineType.Delete →
      (l.line.oldLineNumber).isSome) :
    ∀ l ∈ deletedOf ms, (l.line.numberField LineNoField.oldLineNumber).isSome := by
  intro l hl
  have hmem := List.mem_of_mem_filter hl
  have htype := List.of_mem_filter hl
  exact hdel l hmem (by simpa using htype)

/-- C1: for every run of add and delete lines (every add carrying a new line
number and every delete an old one, the producer contract), the classifier
emits, shape for shape, exactly the sequence the claim describes: in
side-by-side mode min(added, deleted) Modified rows pairing added i with
deleted i in order, then the remaining unpaired Deleted rows in order, then
the remaining unpaired Added rows in order; in unified mode no Modified rows,
all Deleted rows in order and then all Added rows; every row carrying the
diff line number of the first run line as its hunk start identifier. -/
theorem c1_run_pairing (ms : List ModifiedLine) (sbs : Bool)
    (hadd : ∀ l ∈ ms, l.line.type = DiffLineType.Add →
      (l.line.newLineNumber).isSome)
    (hdel : ∀ l ∈ ms, l.line.type = DiffLineType.Delete →
      (l.line.oldLineNumber).isSome) :
    (getModifiedRows ms sbs).map (List.map SimplifiedDiffRow.clearTokens) =
      some (specRunRows ms sbs) := by
  cases ms with
  | nil => rfl
  | cons first rest =>
    rw [getModifiedRows_eq first rest sbs
      (mem_addedOf_isSome _ hadd) (mem_deletedOf_isSome _ hdel)]
    simp only [Option.map_some']
    congr 1
    have hpc : pairCount (first :: rest) sbs =
        if sbs then
          min (addedOf (first :: rest)).length (deletedOf (first :: rest)).length
        else 0 := rfl
    have hspec : specRunRows (first :: rest) sbs =
        ((List.range (pairCount (first :: rest) sbs)).map fun i =>
          SimplifiedDiffRow.Modified
            (specData ((deletedOf (first :: rest)).getD i default) .oldLineNumber)
            (specData ((addedOf (first :: rest)).getD i default) .newLineNumber)
            first.diffLineNumber)
        ++ (((deletedOf (first :: rest)).drop (pairCount (first :: rest) sbs)).map
            fun d => SimplifiedDiffRow.Deleted (specData d .oldLineNumber)
              first.diffLineNumber)
        ++ (((addedOf (first :: rest)).drop (pairCount (first :: rest) sbs)).map
            fun a => SimplifiedDiffRow.Added (specData a .newLineNumber)
              first.diffLineNumber) := rfl
    rw [hspec]
    unfold masterRows
    simp only [List.map_append, List.map_map]
    rw [map_drop_eq_range_map ((deletedOf (first :: rest)))
        (pairCount (first :: rest) sbs) (fun d =>
          SimplifiedDiffRow.Deleted (specData d .oldLineNumber)
            first.diffLineNumber),
      map_drop_eq_range_map ((addedOf (first :: rest)))
        (pairCount (first :: rest) sbs) (fun a =>
          SimplifiedDiffRow.Added (specData a .newLineNumber)
            first.diffLineNumber)]
    congr 1

/-- A deleted witness line with content foo bar. -/
def lineDelFoo : DiffLine :=
  { text := "-foo bar"
    content := "foo bar"
    type := DiffLineType.Delete
    originalLineNumber := some 10
    oldLineNumber := some 3
    newLineNumber := none
    noTrailingNewLine := false }

/-- A second deleted witness line. -/
def lineDelQux : DiffLine :=
  { text := "-qux"
    content := "qux"
    type := DiffLineType.Delete
    originalLineNumber := some 11
    oldLineNumber := some 4
    newLineNumber := none
    noTrailingNewLine := false }

/-- An added witness line with content foo baz. -/
def lineAddBaz : DiffLine :=
  { text := "+foo baz"
    content := "foo baz"
    type := DiffLineType.Add
    originalLineNumber := some 12
    oldLineNumber := none
    newLineNumber := some 3
    noTrailingNewLine := false }

/-- A run of two deletes followed by one add, starting at diff line 10. -/
def runWit : List ModifiedLine :=
  [⟨lineDelFoo, 10⟩, ⟨lineDelQux, 11⟩, ⟨lineAddBaz, 12⟩]

/-- Witness for C1: on a concrete 2-delete 1-add run in side-by-side mode,
the classifier emits one Modified pair followed by the unpaired Deleted row,
all carrying hunk start 10. -/
theorem c1_run_pairing_witness :
    (getModifiedRows runWit true).map (List.map SimplifiedDiffRow.clearTokens) =
      some (specRunRows runWit true) ∧
    specRunRows runWit true =
      [SimplifiedDiffRow.Modified
        (specData ⟨lineDelFoo, 10⟩ LineNoField.oldLineNumber)
        (specData ⟨lineAddBaz, 12⟩ LineNoField.newLineNumber) 10,
       SimplifiedDiffRow.Deleted
        (specData ⟨lineDelQux, 11⟩ LineNoField.oldLineNumber) 10] :=
  ⟨c1_run_pairing runWit true (by decide) (by decide), by decide⟩

lemma pairEmphasis_some (dls als : List ModifiedLine) (i : Nat)
    (d a : ModifiedLine) (hd : dls[i]? = some d) (ha : als[i]? = some a) :
    pairEmphasis dls als i =
      if a.line.content.length < MaxLineLengthToCalculateDiff ∧
          d.line.content.length < MaxLineLengthToCalculateDiff then
        some (getDiffTokens d.line.content a.line.content)
      else none := by
  unfold pairEmphasis
  rw [hd, ha]

lemma specPairEmphasis_some (ms : List ModifiedLine) (i : Nat)
    (d a : ModifiedLine) (hd : (deletedOf ms)[i]? = some d)
    (ha : (addedOf ms)[i]? = some a) :
    specPairEmphasis ms i =
      if (addedOf ms).length = (deletedOf ms).length ∧
          d.line.content.length < MaxLineLengthToCalculateDiff ∧
          a.line.content.length < MaxLineLengthToCalculateDiff then
        some (getDiffTokens d.line.content a.line.content)
      else none := by
  unfold specPairEmphasis
  rw [hd, ha]

lemma specPairEmphasis_none_of_deleted (ms : List ModifiedLine) (i : Nat)
    (hd : (deletedOf ms)[i]? = none) : specPairEmphasis ms i = none := by
  unfold specPairEmphasis
  rw [hd]

lemma specPairEmphasis_none_of_unequal (ms : List ModifiedLine) (i : Nat)
    (heq : ¬ (addedOf ms).length = (deletedOf ms).length) :
    specPairEmphasis ms i = none := by
  cases hd2 : (deletedOf ms)[i]? with
  | none => exact specPairEmphasis_none_of_deleted ms i hd2
  | some d =>
    cases ha2 : (addedOf ms)[i]? with
    | none =>
      unfold specPairEmphasis
      rw [hd2, ha2]
    | some a =>
      rw [specPairEmphasis_some ms i d a hd2 ha2, if_neg (by tauto)]

lemma emphAt_tokensBeforeList (ms : List ModifiedLine) (i : Nat) :
    emphAt (tokensBeforeList ms) i =
      (specPairEmphasis ms i).map DiffTokensResult.before := by
  by_cases heq : (addedOf ms).length = (deletedOf ms).length
  · by_cases hi : i < (deletedOf ms).length
    · have hia : i < (addedOf ms).length := by omega
      have hd := List.getElem?_eq_getElem hi
      have ha := List.getElem?_eq_getElem hia
      have hL : emphAt (tokensBeforeList ms) i =
          (pairEmphasis (deletedOf ms) (addedOf ms) i).map
            DiffTokensResult.before := by
        unfold tokensBeforeList emphAt
        rw [if_pos heq, List.getD_eq_getElem?_getD, List.getElem?_map,
          List.getElem?_range hi]
        rfl
      rw [hL, pairEmphasis_some _ _ _ _ _ hd ha,
        specPairEmphasis_some _ _ _ _ hd ha]
      by_cases hlen :
          ((addedOf ms)[i]).line.content.length < MaxLineLengthToCalculateDiff ∧
          ((deletedOf ms)[i]).line.content.length < MaxLineLengthToCalculateDiff
      · rw [if_pos hlen, if_pos ⟨heq, hlen.2, hlen.1⟩]
      · rw [if_neg hlen, if_neg (by tauto)]
    · have hdnone : (deletedOf ms)[i]? = none :=
        List.getElem?_eq_none (by omega)
      have hL : emphAt (tokensBeforeList ms) i = none := by
        unfold tokensBeforeList emphAt
        rw [if_pos heq, List.getD_eq_getElem?_getD, List.getElem?_map,
          List.getElem?_eq_none (by simpa using hi)]
        rfl
      rw [hL, specPairEmphasis_none_of_deleted ms i hdnone]
      rfl
  · have hL : emphAt (tokensBeforeList ms) i = none := by
      unfold tokensBeforeList
      rw [if_neg heq]
      simp [emphAt]
    rw [hL, specPairEmphasis_none_of_unequal ms i heq]
    rfl

lemma emphAt_tokensAfterList (ms : List ModifiedLine) (i : Nat) :
    emphAt (tokensAfterList ms) i =
      (specPairEmphasis ms i).map DiffTokensResult.after := by
  by_cases heq : (addedOf ms).length = (deletedOf ms).length
  · by_cases hi : i < (deletedOf ms).length
    · have hia : i < (addedOf ms).length := by omega
      have hd := List.getElem?_eq_getElem hi
      have ha := List.getElem?_eq_getElem hia
      have hL : emphAt (tokensAfterList ms) i =
          (pairEmphasis (deletedOf ms) (addedOf ms) i).map
            DiffTokensResult.after := by
        unfold tokensAfterList emphAt
        rw [if_pos heq, List.getD_eq_getElem?_getD, List.getElem?_map,
          List.getElem?_range hi]
        rfl
      rw [hL, pairEmphasis_some _ _ _ _ _ hd ha,
        specPairEmphasis_some _ _ _ _ hd ha]
      by_cases hlen :
          ((addedOf ms)[i]).line.content.length < MaxLineLengthToCalculateDiff ∧
          ((deletedOf ms)[i]).line.content.length < MaxLineLengthToCalculateDiff
      · rw [if_pos hlen, if_pos ⟨heq, hlen.2, hlen.1⟩]
      · rw [if_neg hlen, if_neg (by tauto)]
    · have hdnone : (deletedOf ms)[i]? = none :=
        List.getElem?_eq_none (by omega)
      have hL : emphAt (tokensAfterList ms) i = none := by
        unfold tokensAfterList emphAt
        rw [if_pos heq, List.getD_eq_getElem?_getD, List.getElem?_map,
          List.getElem?_eq_none (by simpa using hi)]
        rfl
      rw [hL, specPairEmphasis_none_of_deleted ms i hdnone]
      rfl
  · have hL : emphAt (tokensAfterList ms) i = none := by
      unfold tokensAfterList
      rw [if_neg heq]
      simp [emphAt]
    rw [hL, specPairEmphasis_none_of_unequal ms i heq]
    rfl

lemma totalRowData_tokens (ml : ModifiedLine) (fld : LineNoField)
    (t : Option ILineTokens) :
    (totalRowData ml fld t).tokens =
      match t with | some x => [x] | none => [] := rfl

lemma match_map_before (e : Option DiffTokensResult) :
    (match e.map DiffTokensResult.before with
     | some x => [x]
     | none => ([] : List ILineTokens)) = beforeTokenList e := by
  cases e <;> rfl

lemma match_map_after (e : Option DiffTokensResult) :
    (match e.map DiffTokensResult.after with
     | some x => [x]
     | none => ([] : List ILineTokens)) = afterTokenList e := by
  cases e <;> rfl

lemma masterRows_getElem_pair (ms : List ModifiedLine) (sbs : Bool)
    (start i : Nat) (h : i < pairCount ms sbs) :
    (masterRows ms sbs start)[i]? =
      some (SimplifiedDiffRow.Modified
        (totalRowData ((deletedOf ms).getD i default) .oldLineNumber
          (emphAt (tokensBeforeList ms) i))
        (totalRowData ((addedOf ms).getD i default) .newLineNumber
          (emphAt (tokensAfterList ms) i)) start) := by
  unfold masterRows
  rw [List.getElem?_append_left (by simp; omega),
    List.getElem?_append_left (by simp [h]),
    List.getElem?_map, List.getElem?_range h]
  rfl

lemma masterRows_getElem_deleted (ms : List ModifiedLine) (sbs : Bool)
    (start i : Nat) (h1 : pairCount ms sbs ≤ i)
    (h2 : i < (deletedOf ms).length) :
    (masterRows ms sbs start)[i]? =
      some (SimplifiedDiffRow.Deleted
        (totalRowData ((deletedOf ms).getD i default) .oldLineNumber
          (emphAt (tokensBeforeList ms) i)) start) := by
  have hkd := pairCount_le_deleted ms sbs
  unfold masterRows
  rw [List.getElem?_append_left (by simp; omega),
    List.getElem?_append_right (by simp; omega),
    List.getElem?_map]
  simp only [List.length_map, List.length_range]
  rw [List.getElem?_range (by omega)]
  simp only [Option.map_some']
  have h3 : pairCount ms sbs + (i - pairCount ms sbs) = i := by omega
  rw [h3]

lemma masterRows_getElem_added (ms : List ModifiedLine) (sbs : Bool)
    (start i : Nat) (h1 : (deletedOf ms).length ≤ i)
    (h2 : i < (deletedOf ms).length +
      ((addedOf ms).length - pairCount ms sbs)) :
    (masterRows ms sbs start)[i]? =
      some (SimplifiedDiffRow.Added
        (totalRowData
          ((addedOf ms).getD (i + pairCount ms sbs - (deletedOf ms).length)
            default) .newLineNumber
          (emphAt (tokensAfterList ms)
            (i + pairCount ms sbs - (deletedOf ms).length))) start) := by
  have hkd := pairCount_le_deleted ms sbs
  unfold masterRows
  rw [List.getElem?_append_right (by simp; omega),
    List.getElem?_map]
  simp only [List.length_map, List.length_range, List.length_append]
  rw [List.getElem?_range (by omega)]
  simp only [Option.map_some']
  have h3 : pairCount ms sbs +
      (i - (pairCount ms sbs + ((deletedOf ms).length - pairCount ms sbs))) =
      i + pairCount ms sbs - (deletedOf ms).length := by omega
  rw [h3]

lemma masterRows_getElem_none (ms : List ModifiedLine) (sbs : Bool)
    (start i : Nat)
    (h : (deletedOf ms).length +
      ((addedOf ms).length - pairCount ms sbs) ≤ i) :
    (masterRows ms sbs start)[i]? = none := by
  have hkd := pairCount_le_deleted ms sbs
  apply List.getElem?_eq_none
  simp [masterRows]
  omega

/-- C5: in the classified rows of a run, a pair carries intra-line emphasis
tokens exactly when the run has as many added as deleted lines and both
contents are strictly below the 240 character threshold; any pair over the
threshold and every pair of an unbalanced run carries none, and classification
still succeeds.  Modified and Deleted rows at position i belong to pair i;
an Added row at position i belongs to pair i + pairs - deleted count. -/
theorem c5_intraline_threshold (ms : List ModifiedLine) (sbs : Bool)
    (rows : List SimplifiedDiffRow) (i : Nat)
    (hadd : ∀ l ∈ ms, l.line.type = DiffLineType.Add →
      (l.line.newLineNumber).isSome)
    (hdel : ∀ l ∈ ms, l.line.type = DiffLineType.Delete →
      (l.line.oldLineNumber).isSome)
    (hrows : getModifiedRows ms sbs = some rows) :
    (match rows[i]? with
     | some (SimplifiedDiffRow.Modified bd ad _) =>
         bd.tokens = beforeTokenList (specPairEmphasis ms i) ∧
         ad.tokens = afterTokenList (specPairEmphasis ms i)
     | some (SimplifiedDiffRow.Deleted dd _) =>
         dd.tokens = beforeTokenList (specPairEmphasis ms i)
     | some (SimplifiedDiffRow.Added ad2 _) =>
         ad2.tokens = afterTokenList
           (specPairEmphasis ms (i + pairCount ms sbs - (deletedOf ms).length))
     | _ => True) := by
  cases ms with
  | nil =>
    have h0 : getModifiedRows ([] : List ModifiedLine) sbs = some [] := rfl
    rw [h0] at hrows
    injection hrows with hr
    subst hr
    trivial
  | cons first rest =>
    rw [getModifiedRows_eq first rest sbs (mem_addedOf_isSome _ hadd)
      (mem_deletedOf_isSome _ hdel)] at hrows
    injection hrows with hr
    subst hr
    have hkd := pairCount_le_deleted (first :: rest) sbs
    have hka := pairCount_le_added (first :: rest) sbs
    by_cases h1 : i < pairCount (first :: rest) sbs
    · rw [masterRows_getElem_pair (first :: rest) sbs first.diffLineNumber i h1]
      refine ⟨?_, ?_⟩
      · rw [totalRowData_tokens, emphAt_tokensBeforeList]
        exact match_map_before _
      · rw [totalRowData_tokens, emphAt_tokensAfterList]
        exact match_map_after _
    · by_cases h2 : i < (deletedOf (first :: rest)).length
      · rw [masterRows_getElem_deleted (first :: rest) sbs first.diffLineNumber
          i (by omega) h2]
        show (totalRowData _ _ _).tokens = _
        rw [totalRowData_tokens, emphAt_tokensBeforeList]
        exact match_map_before _
      · by_cases h3 : i < (deletedOf (first :: rest)).length +
            ((addedOf (first :: rest)).length - pairCount (first :: rest) sbs)
        · rw [masterRows_getElem_added (first :: rest) sbs first.diffLineNumber
            i (by omega) h3]
          show (totalRowData _ _ _).tokens = _
          rw [totalRowData_tokens, emphAt_tokensAfterList]
          exact match_map_after _
        · rw [masterRows_getElem_none (first :: rest) sbs first.diffLineNumber
            i (by omega)]
          trivial

/-- A balanced run of one delete and one add. -/
def runWit5 : List ModifiedLine := [⟨lineDelFoo, 10⟩, ⟨lineAddBaz, 11⟩]

/-- Witness for C5: the concrete balanced pair foo bar / foo baz is below the
threshold, so its Modified row carries exactly the computed emphasis span. -/
theorem c5_intraline_threshold_witness :
    (match ((getModifiedRows runWit5 true).getD [])[0]? with
     | some (SimplifiedDiffRow.Modified bd ad _) =>
         bd.tokens = beforeTokenList (specPairEmphasis runWit5 0) ∧
         ad.tokens = afterTokenList (specPairEmphasis runWit5 0)
     | some (SimplifiedDiffRow.Deleted dd _) =>
         dd.tokens = beforeTokenList (specPairEmphasis runWit5 0)
     | some (SimplifiedDiffRow.Added ad2 _) =>
         ad2.tokens = afterTokenList
           (specPairEmphasis runWit5
             (0 + pairCount runWit5 true - (deletedOf runWit5).length))
     | _ => True) ∧
    beforeTokenList (specPairEmphasis runWit5 0) =
      [[(6, { length := 1, token := "diff-delete-inner" })]] :=
  ⟨c5_intraline_threshold runWit5 true ((getModifiedRows runWit5 true).getD [])
      0 (by decide) (by decide) (by decide),
    by decide⟩
